import Mathlib

/-!
Verification development for the pygccxml cross-unit declaration merge engine:
the C++ type model (`pygccxml/declarations/cpptypes.py`), the gccxml
configuration object (`pygccxml/parser/config.py`), and the merge passes of
`pygccxml/parser/project_reader.py` (`_join_namespaces`,
`_join_class_hierarchy`, `_relink_declarated_types`).

Python object identity is embedded explicitly: type nodes carry an allocation
identifier `oid`, declarations live in an arena addressed by numeric ids, and
the mutable list fields of the configuration object are references into a
small heap.  Fallible Python code (attribute access on `None`) is embedded
with `Option`.
-/

namespace PygSpec

/-! ## Type model (cpptypes.py)

Each constructor corresponds to one concrete `type_t` subclass.  `oid` stands
for the Python object identity of the node.  `returnType`, `classInst` and
`variableType` are `Option` because the corresponding constructor arguments
default to `None` in the source. -/

inductive CType where
  | fundamental (oid : Nat) (name : String)
  | unknown (oid : Nat)
  | volatileT (oid : Nat) (base : CType)
  | constT (oid : Nat) (base : CType)
  | pointerT (oid : Nat) (base : CType)
  | referenceT (oid : Nat) (base : CType)
  | arrayT (oid : Nat) (base : CType) (size : Int)
  | freeFunctionT (oid : Nat) (returnType : Option CType) (argumentsTypes : List CType)
  | memberFunctionT (oid : Nat) (classInst : Option CType) (returnType : Option CType)
      (argumentsTypes : List CType) (hasConst : Bool)
  | memberVariableT (oid : Nat) (classInst : Option CType) (variableType : Option CType)
  | declaratedT (oid : Nat) (declaration : Nat)
deriving Repr

/-- The `','.join(...)` used by the callable-type templates. -/
def commaJoin (parts : List String) : String :=
  String.intercalate "," parts

mutual

/-- The `decl_string` property (`_create_decl_string` of each subclass).
`env` maps declaration ids to the declaration's own `decl_string`
(`declarated_t._create_decl_string` delegates to its declaration); `none`
models the `AttributeError` the Python code raises when `class_inst`,
`return_type` or `variable_type` is `None`. -/
def declString (env : Nat → Option String) : CType → Option String
  | .fundamental _ n => some n
  | .unknown _ => some "?unknown?"
  | .volatileT _ b =>
    match declString env b with
    | none => none
    | some s => some ("volatile " ++ s)
  | .constT _ b =>
    match declString env b with
    | none => none
    | some s => some (s ++ " const")
  | .pointerT _ b =>
    match declString env b with
    | none => none
    | some s => some (s ++ " *")
  | .referenceT _ b =>
    match declString env b with
    | none => none
    | some s => some (s ++ " &")
  | .arrayT _ b sz =>
    match declString env b with
    | none => none
    | some s => some (s ++ "[" ++ toString sz ++ "]")
  | .freeFunctionT _ ret args =>
    match ret with
    | none => none
    | some r =>
      match declString env r, declStringList env args with
      | some rs, some parts => some (rs ++ " (*)( " ++ commaJoin parts ++ " )")
      | _, _ => none
  | .memberFunctionT _ cls ret args hc =>
    match cls, ret with
    | some c, some r =>
      match declString env c, declString env r, declStringList env args with
      | some cs, some rs, some parts =>
        some (rs ++ " ( " ++ cs ++ "::* )( " ++ commaJoin parts ++ " ) " ++
          (if hc then "const" else ""))
      | _, _, _ => none
    | _, _ => none
  | .memberVariableT _ cls vt =>
    match cls, vt with
    | some c, some v =>
      match declString env c, declString env v with
      | some cs, some vs => some (vs ++ " ( " ++ cs ++ "::* )")
      | _, _ => none
    | _, _ => none
  | .declaratedT _ d => env d

/-- Renders each argument type in order (`map(lambda x: x.decl_string, ...)`). -/
def declStringList (env : Nat → Option String) : List CType → Option (List String)
  | [] => some []
  | t :: ts =>
    match declString env t, declStringList env ts with
    | some s, some ss => some (s :: ss)
    | _, _ => none

end

mutual

/-- The `clone` method (`_clone_impl` of each subclass), threading a
fresh-object counter for allocation identities.  `fundamental_t` and
`unknown_t` return `self` (no allocation); the compound variants allocate a
new node around a recursively cloned base; the callable variants clone
return and argument types but pass `class_inst` through unchanged;
`declarated_t` allocates a new wrapper around the same declaration id.
`none` models the crash of `member_variable_type_t._clone_impl`, which calls
`self.variable_type.clone()` even when `variable_type` is `None`. -/
def cloneT : CType → Nat → Option (CType × Nat)
  | .fundamental i n, c => some (.fundamental i n, c)
  | .unknown i, c => some (.unknown i, c)
  | .volatileT _ b, c =>
    match cloneT b c with
    | none => none
    | some (b2, c2) => some (.volatileT c2 b2, c2 + 1)
  | .constT _ b, c =>
    match cloneT b c with
    | none => none
    | some (b2, c2) => some (.constT c2 b2, c2 + 1)
  | .pointerT _ b, c =>
    match cloneT b c with
    | none => none
    | some (b2, c2) => some (.pointerT c2 b2, c2 + 1)
  | .referenceT _ b, c =>
    match cloneT b c with
    | none => none
    | some (b2, c2) => some (.referenceT c2 b2, c2 + 1)
  | .arrayT _ b sz, c =>
    match cloneT b c with
    | none => none
    | some (b2, c2) => some (.arrayT c2 b2 sz, c2 + 1)
  | .freeFunctionT _ ret args, c =>
    match cloneOpt ret c with
    | none => none
    | some (r2, c1) =>
      match cloneList args c1 with
      | none => none
      | some (args2, c2) => some (.freeFunctionT c2 r2 args2, c2 + 1)
  | .memberFunctionT _ cls ret args hc, c =>
    match cloneOpt ret c with
    | none => none
    | some (r2, c1) =>
      match cloneList args c1 with
      | none => none
      | some (args2, c2) => some (.memberFunctionT c2 cls r2 args2 hc, c2 + 1)
  | .memberVariableT _ cls vt, c =>
    match vt with
    | none => none
    | some v =>
      match cloneT v c with
      | none => none
      | some (v2, c2) => some (.memberVariableT c2 cls (some v2), c2 + 1)
  | .declaratedT _ d, c => some (.declaratedT c d, c + 1)

/-- The `rt_clone = None if self.return_type is None else self.return_type.clone()`
guard of the function-type `_clone_impl`s. -/
def cloneOpt : Option CType → Nat → Option (Option CType × Nat)
  | none, c => some (none, c)
  | some t, c =>
    match cloneT t c with
    | none => none
    | some (t2, c2) => some (some t2, c2)

/-- The `[ arg.clone() for arg in self.arguments_types ]` comprehension. -/
def cloneList : List CType → Nat → Option (List CType × Nat)
  | [], c => some ([], c)
  | t :: ts, c =>
    match cloneT t c with
    | none => none
    | some (t2, c1) =>
      match cloneList ts c1 with
      | none => none
      | some (ts2, c2) => some (t2 :: ts2, c2)

end

mutual

/-- Allocation identities of every node of a type tree. -/
def allOids : CType → List Nat
  | .fundamental i _ => [i]
  | .unknown i => [i]
  | .volatileT i b => i :: allOids b
  | .constT i b => i :: allOids b
  | .pointerT i b => i :: allOids b
  | .referenceT i b => i :: allOids b
  | .arrayT i b _ => i :: allOids b
  | .freeFunctionT i ret args => i :: (allOidsOpt ret ++ allOidsList args)
  | .memberFunctionT i cls ret args _ =>
    i :: (allOidsOpt cls ++ allOidsOpt ret ++ allOidsList args)
  | .memberVariableT i cls vt => i :: (allOidsOpt cls ++ allOidsOpt vt)
  | .declaratedT i _ => [i]

def allOidsOpt : Option CType → List Nat
  | none => []
  | some t => allOids t

def allOidsList : List CType → List Nat
  | [] => []
  | t :: ts => allOids t ++ allOidsList ts

end

mutual

/-- Allocation identities of the nodes `clone` is required to replace:
compound, callable and declarated nodes, excluding the owning-class
references (`class_inst` of a member function, the base of a
member-variable pointer), which `clone` keeps as the same objects, and
excluding fundamental/unknown value singletons. -/
def mutableOids : CType → List Nat
  | .fundamental _ _ => []
  | .unknown _ => []
  | .volatileT i b => i :: mutableOids b
  | .constT i b => i :: mutableOids b
  | .pointerT i b => i :: mutableOids b
  | .referenceT i b => i :: mutableOids b
  | .arrayT i b _ => i :: mutableOids b
  | .freeFunctionT i ret args => i :: (mutableOidsOpt ret ++ mutableOidsList args)
  | .memberFunctionT i _ ret args _ => i :: (mutableOidsOpt ret ++ mutableOidsList args)
  | .memberVariableT i _ vt => i :: mutableOidsOpt vt
  | .declaratedT i _ => [i]

def mutableOidsOpt : Option CType → List Nat
  | none => []
  | some t => mutableOids t

def mutableOidsList : List CType → List Nat
  | [] => []
  | t :: ts => mutableOids t ++ mutableOidsList ts

end

mutual

/-- Declaration references reachable from a type tree, in traversal order.
These are the objects of the declaration graph; `clone` must never copy
them. -/
def declIds : CType → List Nat
  | .fundamental _ _ => []
  | .unknown _ => []
  | .volatileT _ b => declIds b
  | .constT _ b => declIds b
  | .pointerT _ b => declIds b
  | .referenceT _ b => declIds b
  | .arrayT _ b _ => declIds b
  | .freeFunctionT _ ret args => declIdsOpt ret ++ declIdsList args
  | .memberFunctionT _ cls ret args _ => declIdsOpt cls ++ declIdsOpt ret ++ declIdsList args
  | .memberVariableT _ cls vt => declIdsOpt cls ++ declIdsOpt vt
  | .declaratedT _ d => [d]

def declIdsOpt : Option CType → List Nat
  | none => []
  | some t => declIds t

def declIdsList : List CType → List Nat
  | [] => []
  | t :: ts => declIds t ++ declIdsList ts

end

/-! ## Configuration object (config.py)

`config_t` holds four mutable list attributes.  To state aliasing facts, the
lists live in a heap of list cells addressed by numeric references; `clone`
copies each list into a freshly allocated cell (`self.__include_paths[:]`
and friends). -/

abbrev ListHeap := Nat → List String

/-- Writes a list value into one heap cell (a Python in-place list mutation
such as `del lst[:]` followed by `lst.extend(...)`, or any other rebinding of
the cell's contents). -/
def heapWrite (h : ListHeap) (r : Nat) (l : List String) : ListHeap :=
  fun x => if x = r then l else h x

structure ConfigT where
  gccxml_path : String
  working_directory : String
  include_paths : Nat
  define_symbols : Nat
  undefine_symbols : Nat
  start_with_declarations : Nat
  verbose : Bool
deriving Repr

/-- `config_t.clone`: builds a new `config_t` whose four list attributes are
shallow copies (`[:]`) of the original's, allocated at the next four fresh
heap references. -/
def cloneConfig (h : ListHeap) (c : ConfigT) (ctr : Nat) : ConfigT × ListHeap × Nat :=
  let h1 := heapWrite h ctr (h c.include_paths)
  let h2 := heapWrite h1 (ctr + 1) (h c.define_symbols)
  let h3 := heapWrite h2 (ctr + 2) (h c.undefine_symbols)
  let h4 := heapWrite h3 (ctr + 3) (h c.start_with_declarations)
  ({ gccxml_path := c.gccxml_path
     working_directory := c.working_directory
     include_paths := ctr
     define_symbols := ctr + 1
     undefine_symbols := ctr + 2
     start_with_declarations := ctr + 3
     verbose := c.verbose }, h4, ctr + 4)

/-! ## Declaration model (project_reader.py)

The repository code in `src/` manipulates declaration objects whose class
definitions (`declaration_t`, `class_t`, `namespace_t`, `calldef_t`,
`hierarchy_info_t`, `location_t`, `declaration_path`, `make_flatten`) live
outside `src/`; those parts are modelled from the spec (§3, §4.2) as noted on
each definition.  Declarations live in an arena (`List Decl`) addressed by
ids, which stand for Python object identities. -/

/-- Modelled from the spec: a source location, `(file, line)`; `location.as_tuple()`
of the external `location_t` (spec §3: "a source location (file + line, used
only for identity)"). -/
structure SrcLocation where
  file_name : String
  line : Nat
deriving DecidableEq, Repr, Inhabited

/-- The concrete Python class of a declaration (`decl.__class__`), at the
granularity the merge passes inspect: `namespace_t`, `class_t`, the
`calldef_t` subclasses (two are enough to distinguish different concrete
classes that are both callable), `typedef_t`, `variable_t`, anything else. -/
inductive DKind where
  | namespaceK
  | classK
  | freeFunK
  | memFunK
  | typedefK
  | variableK
  | otherK
deriving DecidableEq, Repr, Inhabited

/-- `isinstance(decl, calldef_t)`. -/
def isCalldef (k : DKind) : Bool :=
  decide (k = DKind.freeFunK) || decide (k = DKind.memFunK)

/-- Modelled from the spec: a hierarchy edge `hierarchy_info_t`, a
`(related class reference, access specifier)` pair (spec §3). -/
structure HEdge where
  related_class : Nat
  access : String
deriving DecidableEq, Repr, Inhabited

/-- Modelled from the spec: the attributes of `declaration_t`/`class_t` the
merge engine inspects (spec §3): name, parent, ordered child list
(`declarations`), source location, and for classes the `bases`/`derived`
edge lists.  `sig` abstracts the signature a `calldef_t` compares equal by
(spec §4.3 "equal (by signature)"). -/
structure Decl where
  kind : DKind
  name : String
  parent : Option Nat
  declarations : List Nat
  location : SrcLocation
  bases : List HEdge
  derived : List HEdge
  sig : String
deriving DecidableEq, Repr, Inhabited

abbrev Arena := List Decl

/-- Dereferences a declaration id (out-of-range ids yield the default
declaration; all reasoning keeps ids in range). -/
def getD (a : Arena) (i : Nat) : Decl :=
  a.getD i default

/-- In-place mutation of one declaration object. -/
def modifyDecl (a : Arena) (i : Nat) (f : Decl → Decl) : Arena :=
  a.set i (f (getD a i))

abbrev DeclKey := SrcLocation × List String

/-- Modelled from the spec: `declaration_path` (§4.2), the qualified path of
names along the parent chain; the arena length bounds the recursion. -/
def declaration_path_aux (a : Arena) : Nat → Nat → List String
  | 0, _ => []
  | fuel + 1, i =>
    match (getD a i).parent with
    | none => [(getD a i).name]
    | some p => (getD a i).name :: declaration_path_aux a fuel p

def declaration_path (a : Arena) (i : Nat) : List String :=
  declaration_path_aux a a.length i

/-- `create_key` of `_join_class_hierarchy` / `_relink_declarated_types`:
`(decl.location.as_tuple(), tuple(declaration_path(decl)))`. -/
def create_key (a : Arena) (i : Nat) : DeclKey :=
  ((getD a i).location, declaration_path a i)

/-- Modelled from the spec: `make_flatten`, the depth-first enumeration of a
declaration subtree, parent before children (§4.4 step 1, "stable input
order"); the arena length bounds the recursion. -/
def flatten_from (a : Arena) : Nat → Nat → List Nat
  | 0, _ => []
  | fuel + 1, i => i :: ((getD a i).declarations).flatMap (flatten_from a fuel)

def make_flatten (a : Arena) (top : List Nat) : List Nat :=
  top.flatMap (flatten_from a a.length)

/-- Modelled from the spec: `hierarchy_info_t.__eq__` — two edges are equal
iff same access and same identity key of the related class, not same object
pointer (spec §3). -/
def hedgeEq (a : Arena) (x y : HEdge) : Bool :=
  decide (x.access = y.access) &&
    decide (create_key a x.related_class = create_key a y.related_class)

/-- Python `in` on an edge list. -/
def containsEdge (a : Arena) (l : List HEdge) (e : HEdge) : Bool :=
  l.any (fun x => hedgeEq a x e)

/-- `l[l.index(e)].related_class = newRel`: rewrites the related class of the
first edge equal to `e` in place. -/
def updFirstEdge (a : Arena) (e : HEdge) (newRel : Nat) : List HEdge → List HEdge
  | [] => []
  | x :: xs =>
    if hedgeEq a x e then { x with related_class := newRel } :: xs
    else x :: updFirstEdge a e newRel xs

/-- The `leaved_classes` dict, key → canonical class id, insertion ordered. -/
abbrev LeavedClasses := List (DeclKey × Nat)

def lookupLeaved (m : LeavedClasses) (k : DeclKey) : Option Nat :=
  match m.find? (fun kv => decide (kv.1 = k)) with
  | none => none
  | some kv => some kv.2

/-- The first loop of `_join_class_hierarchy`: the first class observed for a
key becomes that key's canonical representative. -/
def build_leaved_classes (a : Arena) (classes : List Nat) : LeavedClasses :=
  classes.foldl (fun m i =>
    let k := create_key a i
    if (lookupLeaved m k).isSome then m else m ++ [(k, i)]) []

/-- The `for base_info in class_.bases` body of the second loop of
`_join_class_hierarchy`: resolve the base through the canonical map, install
or update in place the base edge on the canonical class, then install or
update in place the mirrored derived edge on the base's canonical class.
The source indexes `leaved_classes` directly and would raise `KeyError` when
the related class's key is absent; that branch is embedded as a no-op and
every theorem works with inputs whose related classes are in the map. -/
def joinBases (lv : LeavedClasses) (leaved_class : Nat) (a : Arena) (base_info : HEdge) : Arena :=
  match lookupLeaved lv (create_key a base_info.related_class) with
  | none => a
  | some leaved_base =>
    let e1 : HEdge := { related_class := leaved_base, access := base_info.access }
    let a1 :=
      if containsEdge a ((getD a leaved_class).bases) e1 then
        modifyDecl a leaved_class (fun d => { d with bases := updFirstEdge a e1 leaved_base d.bases })
      else
        modifyDecl a leaved_class (fun d => { d with bases := d.bases ++ [e1] })
    let e2 : HEdge := { related_class := leaved_class, access := base_info.access }
    if containsEdge a1 ((getD a1 leaved_base).derived) e2 then
      modifyDecl a1 leaved_base (fun d => { d with derived := updFirstEdge a1 e2 leaved_class d.derived })
    else
      modifyDecl a1 leaved_base (fun d => { d with derived := d.derived ++ [e2] })

/-- The `for derived_info in class_.derived` body of the second loop of
`_join_class_hierarchy`: append the resolved derived edge on the canonical
class when missing, and append the mirrored base edge on the derived class's
canonical object when missing.  Unlike the bases direction, an already
present equal edge is left untouched (the source has no `else` branch
here). -/
def joinDerived (lv : LeavedClasses) (leaved_class : Nat) (a : Arena) (derived_info : HEdge) : Arena :=
  match lookupLeaved lv (create_key a derived_info.related_class) with
  | none => a
  | some leaved_derived =>
    let e1 : HEdge := { related_class := leaved_derived, access := derived_info.access }
    let a1 :=
      if containsEdge a ((getD a leaved_class).derived) e1 then a
      else modifyDecl a leaved_class (fun d => { d with derived := d.derived ++ [e1] })
    let e2 : HEdge := { related_class := leaved_class, access := derived_info.access }
    if containsEdge a1 ((getD a1 leaved_derived).bases) e2 then a1
    else modifyDecl a1 leaved_derived (fun d => { d with bases := d.bases ++ [e2] })

/-- One iteration of the second loop of `_join_class_hierarchy` (one
`class_`).  The source iterates over the live `class_.bases` and
`class_.derived` lists; during one class's processing those lists receive no
new elements (an appended mirror edge is always already-equal to the edge
being processed) and in-place updates preserve each edge's access and key,
so iterating over the snapshots taken here is observationally identical. -/
def repairClass (lv : LeavedClasses) (a : Arena) (i : Nat) : Arena :=
  match lookupLeaved lv (create_key a i) with
  | none => a
  | some leaved_class =>
    let a1 := ((getD a i).bases).foldl (joinBases lv leaved_class) a
    ((getD a1 i).derived).foldl (joinDerived lv leaved_class) a1

/-- `del declarations[declarations_ids.index(id(class_))]`: removes the first
occurrence of exactly this object id.  The source raises `ValueError` when
the id is absent; callers only reach this with the id present. -/
def removeFirst (i : Nat) : List Nat → List Nat
  | [] => []
  | x :: xs => if x = i then xs else x :: removeFirst i xs

/-- One iteration of the third loop of `_join_class_hierarchy`: a class that
is not its key's canonical representative (compared by object identity) is
deleted from its parent's child-declaration list, or from the top-level
namespace list when it has no parent. -/
def removeDuplicate (lv : LeavedClasses) (st : Arena × List Nat) (i : Nat) : Arena × List Nat :=
  match lookupLeaved lv (create_key st.1 i) with
  | none => st
  | some c =>
    if c = i then st
    else
      match (getD st.1 i).parent with
      | some p =>
        (modifyDecl st.1 p (fun d => { d with declarations := removeFirst i d.declarations }), st.2)
      | none => (st.1, removeFirst i st.2)

/-- A merged forest: the declaration arena plus the top-level namespace
list (`namespaces`, the `answer` list of `__parse_file_by_file`). -/
structure Forest where
  arena : Arena
  top : List Nat
deriving Repr

/-- `filter(lambda decl: isinstance(decl, class_t), make_flatten(namespaces))`. -/
def classesOf (f : Forest) : List Nat :=
  (make_flatten f.arena f.top).filter (fun i => decide ((getD f.arena i).kind = DKind.classK))

/-- `_join_class_hierarchy`: builds the canonical map, repairs every class's
hierarchy edges onto canonical objects, removes duplicate class objects from
their parents, and returns the canonical map together with the rewritten
forest. -/
def join_class_hierarchy (f : Forest) : LeavedClasses × Forest :=
  let classes := classesOf f
  let lv := build_leaved_classes f.arena classes
  let a1 := classes.foldl (repairClass lv) f.arena
  let st := classes.foldl (removeDuplicate lv) (a1, f.top)
  (lv, { arena := st.1, top := st.2 })

/-! ## Namespace joiner (`_join_namespaces`) -/

/-- The two-level `ddhash` dict: `decl.__class__ → { decl.name : [decls] }`. -/
abbrev DDHash := List (DKind × List (String × List Nat))

def ndFind (n : String) : List (String × List Nat) → Option (List Nat)
  | [] => none
  | kv :: rest => if kv.1 = n then some kv.2 else ndFind n rest

def ndSet (n : String) (l : List Nat) : List (String × List Nat) → List (String × List Nat)
  | [] => [(n, l)]
  | kv :: rest => if kv.1 = n then (n, l) :: rest else kv :: ndSet n l rest

def ddFind (k : DKind) : DDHash → Option (List (String × List Nat))
  | [] => none
  | kv :: rest => if kv.1 = k then some kv.2 else ddFind k rest

def ddSet (k : DKind) (m : List (String × List Nat)) : DDHash → DDHash
  | [] => [(k, m)]
  | kv :: rest => if kv.1 = k then (k, m) :: rest else kv :: ddSet k m rest

/-- Modelled from the spec: the `calldef_t.__eq__` used by `decl not in
joined_decls[decl.name]` — equality by signature (§4.3: "equal (by
signature)"), embedded as equality of name and signature string. -/
def declSigEq (a : Arena) (i j : Nat) : Bool :=
  decide ((getD a i).name = (getD a j).name) && decide ((getD a i).sig = (getD a j).sig)

/-- Modelled from the spec: `namespace_t.take_parenting` (§4.3) — merge the
other namespace's children into this one, re-parenting them. -/
def take_parenting (a : Arena) (target other : Nat) : Arena :=
  let oc := (getD a other).declarations
  let a1 := modifyDecl a target (fun d => { d with declarations := d.declarations ++ oc })
  let a2 := modifyDecl a1 other (fun d => { d with declarations := [] })
  oc.foldl (fun acc j => modifyDecl acc j (fun d => { d with parent := some target })) a2

/-- The loop body of `_join_namespaces`.  State: the `ddhash`, the `decls`
output list, and the arena (mutated only by `take_parenting`).  The
`assert 1 == len(joined_decls[decl.name])` of the non-callable branch is a
fatal precondition (spec §7(b)) and is not itself modelled. -/
def joinNamespacesStep (st : DDHash × List Nat × Arena) (i : Nat) : DDHash × List Nat × Arena :=
  let h := st.1
  let decls := st.2.1
  let a := st.2.2
  let k := (getD a i).kind
  let n := (getD a i).name
  match ddFind k h with
  | none => (ddSet k [(n, [i])] h, decls ++ [i], a)
  | some joined =>
    match ndFind n joined with
    | none => (ddSet k (ndSet n [i] joined) h, decls ++ [i], a)
    | some recorded =>
      if isCalldef k then
        if recorded.any (fun r => declSigEq a r i) then (h, decls, a)
        else (ddSet k (ndSet n (recorded ++ [i]) joined) h, decls ++ [i], a)
      else
        if k = DKind.namespaceK then
          match recorded with
          | r :: _ => (h, decls, take_parenting a r i)
          | [] => (h, decls, a)
        else (h, decls, a)

/-- `_join_namespaces`: partitions the namespace's children by
`(decl.__class__, decl.name)` and rebuilds the child list, deduplicating
signature-identical callables and folding duplicate nested namespaces into
the first one.  Returns the final `ddhash`, the new `declarations` list, and
the arena. -/
def join_namespaces (a : Arena) (children : List Nat) : DDHash × List Nat × Arena :=
  children.foldl joinNamespacesStep ([], [], a)

/-! ## Declared-type relinker (`_relink_declarated_types`) -/

/-- A `declarated_t` wrapper occurrence collected by `__declarated_types`:
the mutable `declaration` reference it holds. -/
structure DeclaratedWrapper where
  declaration : Nat
deriving DecidableEq, Repr

/-- The per-wrapper rewrite of `_relink_declarated_types`: a wrapper whose
declaration is a class present in the canonical map is re-pointed at the
canonical object; otherwise it is left unchanged. -/
def relinkOne (a : Arena) (lv : LeavedClasses) (w : DeclaratedWrapper) : DeclaratedWrapper :=
  if (getD a w.declaration).kind = DKind.classK then
    match lookupLeaved lv (create_key a w.declaration) with
    | some c => { declaration := c }
    | none => w
  else w

/-- The warning `_relink_declarated_types` logs for a class key absent from
the canonical map (first line of the logged message; the remaining lines are
static explanatory text). -/
def relinkWarn (a : Arena) (lv : LeavedClasses) (w : DeclaratedWrapper) : Option String :=
  if (getD a w.declaration).kind = DKind.classK then
    match lookupLeaved lv (create_key a w.declaration) with
    | some _ => none
    | none => some ("Unable to find out actual class definition: " ++ (getD a w.declaration).name)
  else none

/-- `_relink_declarated_types`: one pass over the collected wrappers; the
source performs the rewrite and the logging in a single loop, split here
into the pointwise rewrite and the collected warnings. -/
def relink_declarated_types (a : Arena) (lv : LeavedClasses) (ws : List DeclaratedWrapper) :
    List DeclaratedWrapper × List String :=
  (ws.map (relinkOne a lv), ws.filterMap (relinkWarn a lv))

/-! ## Auxiliary predicates for the theorems -/

/-- The list a declaration sits in: its parent's child list, or the top-level
namespace list when it has no parent. -/
def containerList (a : Arena) (top : List Nat) (i : Nat) : List Nat :=
  match (getD a i).parent with
  | some p => (getD a p).declarations
  | none => top

/-- A declaration survives in a forest when its container still holds it. -/
def survives (g : Forest) (i : Nat) : Prop :=
  i ∈ containerList g.arena g.top i

/-- Well-placedness of one declaration object: it occurs exactly once in its
own container and nowhere else.  This is how a forest built from per-file
parses looks: every object is linked from exactly its parent. -/
def GoodPlacement (a : Arena) (top : List Nat) (i : Nat) : Prop :=
  (containerList a top i).count i = 1
    ∧ ((getD a i).parent.isSome → i ∉ top)
    ∧ ∀ q ∈ List.range a.length, (getD a i).parent ≠ some q → i ∉ (getD a q).declarations

instance (a : Arena) (top : List Nat) (i : Nat) : Decidable (GoodPlacement a top i) := by
  unfold GoodPlacement
  infer_instance

/-- Well-formed forest for the duplicate-removal claim: the flattened class
list has no repeated object and every class object is well placed. -/
def WFForest (f : Forest) : Prop :=
  (classesOf f).Nodup ∧ ∀ i ∈ classesOf f, GoodPlacement f.arena f.top i

instance (f : Forest) : Decidable (WFForest f) := by
  unfold WFForest
  infer_instance

/-- Frame between two arenas: same length and identical identity-relevant
fields (kind, name, parent, location, signature) for every declaration.
Keys, edge equality and the canonical map are invariant under it. -/
structure FrameEq (a b : Arena) : Prop where
  len : b.length = a.length
  kind : ∀ j, (getD b j).kind = (getD a j).kind
  name : ∀ j, (getD b j).name = (getD a j).name
  parent : ∀ j, (getD b j).parent = (getD a j).parent
  loc : ∀ j, (getD b j).location = (getD a j).location
  sig : ∀ j, (getD b j).sig = (getD a j).sig

/-- Stronger frame: additionally every child-declaration list is unchanged
(only `bases`/`derived` may differ), as after the edge-repair loop. -/
structure EdgeOnly (a b : Arena) : Prop where
  frame : FrameEq a b
  decls : ∀ j, (getD b j).declarations = (getD a j).declarations

/-- The shape facts of one `clone` step, per constructor: value singletons
are returned as the same instance with no allocation; compound bases are
recursively cloned under a fresh node; callable nodes keep `class_inst`
unchanged while return/argument/pointee types are recursively cloned; a
declarated node is a fresh wrapper around the same declaration. -/
def CloneShape (t : CType) (c : Nat) (t2 : CType) (c2 : Nat) : Prop :=
  (∀ i n, t = CType.fundamental i n → t2 = CType.fundamental i n ∧ c2 = c)
    ∧ (∀ i, t = CType.unknown i → t2 = CType.unknown i ∧ c2 = c)
    ∧ (∀ i b, t = CType.volatileT i b →
        ∃ b2 cb, cloneT b c = some (b2, cb) ∧ t2 = CType.volatileT cb b2 ∧ c2 = cb + 1)
    ∧ (∀ i b, t = CType.constT i b →
        ∃ b2 cb, cloneT b c = some (b2, cb) ∧ t2 = CType.constT cb b2 ∧ c2 = cb + 1)
    ∧ (∀ i b, t = CType.pointerT i b →
        ∃ b2 cb, cloneT b c = some (b2, cb) ∧ t2 = CType.pointerT cb b2 ∧ c2 = cb + 1)
    ∧ (∀ i b, t = CType.referenceT i b →
        ∃ b2 cb, cloneT b c = some (b2, cb) ∧ t2 = CType.referenceT cb b2 ∧ c2 = cb + 1)
    ∧ (∀ i b sz, t = CType.arrayT i b sz →
        ∃ b2 cb, cloneT b c = some (b2, cb) ∧ t2 = CType.arrayT cb b2 sz ∧ c2 = cb + 1)
    ∧ (∀ i ret args, t = CType.freeFunctionT i ret args →
        ∃ r2 c1 args2 ca, cloneOpt ret c = some (r2, c1)
          ∧ cloneList args c1 = some (args2, ca)
          ∧ t2 = CType.freeFunctionT ca r2 args2 ∧ c2 = ca + 1)
    ∧ (∀ i cls ret args hc, t = CType.memberFunctionT i cls ret args hc →
        ∃ r2 c1 args2 ca, cloneOpt ret c = some (r2, c1)
          ∧ cloneList args c1 = some (args2, ca)
          ∧ t2 = CType.memberFunctionT ca cls r2 args2 hc ∧ c2 = ca + 1)
    ∧ (∀ i cls vt, t = CType.memberVariableT i cls vt →
        ∃ v v2 cv, vt = some v ∧ cloneT v c = some (v2, cv)
          ∧ t2 = CType.memberVariableT cv cls (some v2) ∧ c2 = cv + 1)
    ∧ (∀ i d, t = CType.declaratedT i d → t2 = CType.declaratedT c d ∧ c2 = c + 1)

/-- Frame for the namespace-joiner: kind, name and signature of every
declaration are unchanged (`take_parenting` moves children and re-parents
them but never renames or re-types a declaration). -/
structure AttrFrame (a b : Arena) : Prop where
  kind : ∀ j, (getD b j).kind = (getD a j).kind
  name : ∀ j, (getD b j).name = (getD a j).name
  sig : ∀ j, (getD b j).sig = (getD a j).sig

/-- Two-level `ddhash` access: `ddhash[k][n]` when both keys are present. -/
def dd2 (h : DDHash) (k : DKind) (n : String) : Option (List Nat) :=
  match ddFind k h with
  | none => none
  | some j => ndFind n j

/-- Loop invariant of `_join_namespaces` after processing the child prefix
`pr`: the arena keeps all attributes; the output list only holds processed
children; every recorded declaration is a kept processed child with the
kind/name it is filed under; and every processed child is covered by its
`ddhash` bucket, with a signature-equal representative recorded when it is a
callable. -/
structure JoinNSInv (a0 : Arena) (pr : List Nat) (st : DDHash × List Nat × Arena) : Prop where
  frame : AttrFrame a0 st.2.2
  outSub : ∀ x ∈ st.2.1, x ∈ pr
  recOk : ∀ k n l, dd2 st.1 k n = some l →
    ∀ r ∈ l, r ∈ pr ∧ (getD a0 r).kind = k ∧ (getD a0 r).name = n ∧ r ∈ st.2.1
  covers : ∀ s ∈ pr, ∃ l, dd2 st.1 ((getD a0 s).kind) ((getD a0 s).name) = some l
    ∧ (isCalldef (getD a0 s).kind = true →
        ∃ r ∈ l, (getD a0 r).name = (getD a0 s).name ∧ (getD a0 r).sig = (getD a0 s).sig)

/-- Loop invariant of the duplicate-removal loop of `_join_class_hierarchy`
relative to the pre-pass forest `(a0, top0)`: identity-relevant fields are
untouched, and every child list (and the top-level list) equals its pre-pass
contents minus exactly the already removed duplicate objects. -/
structure RemovalInv (a0 : Arena) (top0 : List Nat) (removed : List Nat)
    (st : Arena × List Nat) : Prop where
  frame : FrameEq a0 st.1
  decls : ∀ j, (getD st.1 j).declarations
    = ((getD a0 j).declarations).filter (fun x => decide (¬ x ∈ removed))
  top : st.2 = top0.filter (fun x => decide (¬ x ∈ removed))

/-! ## Concrete fixtures for closed theorems and witnesses -/

/-- Builds a declaration record. -/
def mkC (k : DKind) (n : String) (par : Option Nat) (ds : List Nat) (loc : SrcLocation)
    (bs dv : List HEdge) : Decl :=
  { kind := k, name := n, parent := par, declarations := ds, location := loc,
    bases := bs, derived := dv, sig := "" }

/-- The diamond scenario of the spec (§8): `D` derives from `B1` and `B2`,
both derive from `A`, and `A` was parsed three times (ids 1, 5, 6 share one
identity key); the duplicate `A`s carry the derived edges the separate
parses saw. -/
def diamondForest : Forest :=
  { arena :=
      [ mkC DKind.namespaceK "n" none [1, 2, 3, 4, 5, 6] ⟨"f", 0⟩ [] []
      , mkC DKind.classK "A" (some 0) [] ⟨"f", 1⟩ [] []
      , mkC DKind.classK "B1" (some 0) [] ⟨"f", 2⟩ [⟨5, "public"⟩] [⟨4, "public"⟩]
      , mkC DKind.classK "B2" (some 0) [] ⟨"f", 3⟩ [⟨6, "public"⟩] [⟨4, "public"⟩]
      , mkC DKind.classK "D" (some 0) [] ⟨"f", 4⟩ [⟨2, "public"⟩, ⟨3, "public"⟩] []
      , mkC DKind.classK "A" (some 0) [] ⟨"f", 1⟩ [] [⟨2, "public"⟩]
      , mkC DKind.classK "A" (some 0) [] ⟨"f", 1⟩ [] [⟨3, "public"⟩] ]
  , top := [0] }

/-- A forest where class `X` (id 3) holds a derived edge to the duplicate
`Y` object (id 2) whose canonical representative is id 1, and no class holds
a matching base edge: only the derived-direction code ever sees this edge. -/
def c1Forest : Forest :=
  { arena :=
      [ mkC DKind.namespaceK "n" none [1, 2, 3] ⟨"f", 0⟩ [] []
      , mkC DKind.classK "Y" (some 0) [] ⟨"f", 1⟩ [] []
      , mkC DKind.classK "Y" (some 0) [] ⟨"f", 1⟩ [] []
      , mkC DKind.classK "X" (some 0) [] ⟨"f", 2⟩ [] [⟨2, "public"⟩] ]
  , top := [0] }

/-- Two-class witness arena for the amended edge-repair theorem. -/
def c1wArena : Arena :=
  [ mkC DKind.classK "X" none [] ⟨"f", 1⟩ [] []
  , mkC DKind.classK "B" none [] ⟨"f", 2⟩ [] [] ]

def c1wLv : LeavedClasses := [((⟨"f", 2⟩, ["B"]), 1)]

/-- A namespace holding the same class parsed twice (ids 1 and 2 share one
identity key). -/
def c3Forest : Forest :=
  { arena :=
      [ mkC DKind.namespaceK "n" none [1, 2] ⟨"f", 0⟩ [] []
      , mkC DKind.classK "C" (some 0) [] ⟨"f", 1⟩ [] []
      , mkC DKind.classK "C" (some 0) [] ⟨"f", 1⟩ [] [] ]
  , top := [0] }

def c4Arena : Arena := [mkC DKind.classK "C" none [] ⟨"h", 3⟩ [] []]

def c4Lv : LeavedClasses := [((⟨"h", 3⟩, ["C"]), 0)]

/-- Two free functions with the same name and different signatures. -/
def c5Arena : Arena :=
  [ { kind := DKind.freeFunK, name := "f", parent := none, declarations := [],
      location := ⟨"f", 1⟩, bases := [], derived := [], sig := "int" }
  , { kind := DKind.freeFunK, name := "f", parent := none, declarations := [],
      location := ⟨"f", 2⟩, bases := [], derived := [], sig := "double" } ]

def c7In : CType :=
  CType.memberFunctionT 3 (some (CType.declaratedT 1 42)) (some (CType.fundamental 0 "int"))
    [CType.pointerT 2 (CType.fundamental 0 "int")] true

def c7Out : CType :=
  CType.memberFunctionT 6 (some (CType.declaratedT 1 42)) (some (CType.fundamental 0 "int"))
    [CType.pointerT 5 (CType.fundamental 0 "int")] true

def c4Ws : List DeclaratedWrapper := [{ declaration := 0 }]

def c9Heap : ListHeap := fun _ => []

def c9Cfg : ConfigT :=
  { gccxml_path := "", working_directory := ".", include_paths := 0, define_symbols := 1,
    undefine_symbols := 2, start_with_declarations := 3, verbose := false }

/-! ## Theorems -/

/-- C2: in the diamond forest (`D` from `B1`, `B2`; both from `A`; `A`
present as three physically distinct duplicates of one identity key), the
hierarchy-unification pass leaves the canonical `A` (id 1) with exactly the
two derived edges `B1`, `B2`, removes the duplicate `A` objects from the
namespace, and exactly one class with `A`'s identity key remains in the
flattened forest. -/
theorem c2_diamond_collapse :
    (getD (join_class_hierarchy diamondForest).2.arena 1).derived
        = [{ related_class := 2, access := "public" }, { related_class := 3, access := "public" }]
      ∧ (getD (join_class_hierarchy diamondForest).2.arena 0).declarations = [1, 2, 3, 4]
      ∧ ((make_flatten (join_class_hierarchy diamondForest).2.arena
            (join_class_hierarchy diamondForest).2.top).filter (fun i =>
          decide ((getD (join_class_hierarchy diamondForest).2.arena i).kind = DKind.classK ∧
            create_key (join_class_hierarchy diamondForest).2.arena i
              = create_key diamondForest.arena 1))) = [1] := by
  decide

/-- C1, counterexample: in `c1Forest`, class `X` (id 3) holds a derived edge
equal (same access, same canonical-related key) to the canonical edge for
`Y` — so by the claim its target had to be rewritten in place to the
canonical object 1 — yet after the pass it still references the duplicate
object 2, which was even deleted from the namespace.  The derived-direction
repair never updates an existing edge in place. -/
theorem c1_counterexample :
    lookupLeaved (join_class_hierarchy c1Forest).1 (create_key c1Forest.arena 2) = some 1
      ∧ hedgeEq c1Forest.arena { related_class := 2, access := "public" }
          { related_class := 1, access := "public" } = true
      ∧ (getD (join_class_hierarchy c1Forest).2.arena 3).derived
          = [{ related_class := 2, access := "public" }]
      ∧ (getD (join_class_hierarchy c1Forest).2.arena 0).declarations = [1, 3] := by
  decide

/-- C10: `volatile_t` renders as the prefix `volatile ` before its base's
rendering while `const_t` renders as the suffix ` const` after it, and the
two rendered strings are never equal, so the two wrappings have distinct
identities (identity is defined by rendering). -/
theorem c10_volatile_prefix_render (env : Nat → Option String) (b : CType) (i j : Nat)
    (s : String) (hb : declString env b = some s) :
    declString env (CType.volatileT i b) = some ("volatile " ++ s)
      ∧ declString env (CType.constT j b) = some (s ++ " const")
      ∧ "volatile " ++ s ≠ s ++ " const" := by
  refine ⟨by simp [declString, hb], by simp [declString, hb], ?_⟩
  intro h
  have hlen : ("volatile " ++ s).length = (s ++ " const").length := congrArg String.length h
  rw [String.length_append, String.length_append] at hlen
  have e1 : "volatile ".length = 9 := rfl
  have e2 : " const".length = 6 := rfl
  rw [e1, e2] at hlen
  omega

theorem c10_volatile_prefix_render_witness :
    declString (fun _ => none) (CType.fundamental 0 "int") = some "int"
      ∧ (declString (fun _ => none) (CType.volatileT 1 (CType.fundamental 0 "int"))
            = some ("volatile " ++ "int")
          ∧ declString (fun _ => none) (CType.constT 2 (CType.fundamental 0 "int"))
            = some ("int" ++ " const")
          ∧ "volatile " ++ "int" ≠ "int" ++ " const") :=
  ⟨rfl, c10_volatile_prefix_render (fun _ => none) (CType.fundamental 0 "int") 1 2 "int" rfl⟩

/-- Reads through the heap produced by `cloneConfig` below the fresh
counter are unchanged. -/
theorem cloneConfig_heap_low (h : ListHeap) (c : ConfigT) (ctr : Nat) (x : Nat)
    (hx : x < ctr) : (cloneConfig h c ctr).2.1 x = h x := by
  simp only [cloneConfig, heapWrite]
  split_ifs with e1 e2 e3 e4
  · omega
  · omega
  · omega
  · omega
  · rfl

/-- C9: `config_t.clone` copies the four list-valued attributes: the clone's
cells hold equal contents, and writing any list into any of the clone's four
cells leaves all four of the original's cells unchanged. -/
theorem c9_config_clone_independent (h : ListHeap) (c : ConfigT) (ctr : Nat)
    (h1 : c.include_paths < ctr) (h2 : c.define_symbols < ctr)
    (h3 : c.undefine_symbols < ctr) (h4 : c.start_with_declarations < ctr) :
    ((cloneConfig h c ctr).2.1 (cloneConfig h c ctr).1.include_paths = h c.include_paths
      ∧ (cloneConfig h c ctr).2.1 (cloneConfig h c ctr).1.define_symbols = h c.define_symbols
      ∧ (cloneConfig h c ctr).2.1 (cloneConfig h c ctr).1.undefine_symbols = h c.undefine_symbols
      ∧ (cloneConfig h c ctr).2.1 (cloneConfig h c ctr).1.start_with_declarations
          = h c.start_with_declarations)
    ∧ ∀ (l : List String) (r : Nat),
        (r = (cloneConfig h c ctr).1.include_paths
          ∨ r = (cloneConfig h c ctr).1.define_symbols
          ∨ r = (cloneConfig h c ctr).1.undefine_symbols
          ∨ r = (cloneConfig h c ctr).1.start_with_declarations) →
        heapWrite (cloneConfig h c ctr).2.1 r l c.include_paths = h c.include_paths
          ∧ heapWrite (cloneConfig h c ctr).2.1 r l c.define_symbols = h c.define_symbols
          ∧ heapWrite (cloneConfig h c ctr).2.1 r l c.undefine_symbols = h c.undefine_symbols
          ∧ heapWrite (cloneConfig h c ctr).2.1 r l c.start_with_declarations
              = h c.start_with_declarations := by
  have hread : ∀ x, x < ctr → (cloneConfig h c ctr).2.1 x = h x :=
    fun x hx => cloneConfig_heap_low h c ctr x hx
  constructor
  · refine ⟨?_, ?_, ?_, ?_⟩ <;>
      simp only [cloneConfig, heapWrite] <;> split_ifs <;> first | rfl | omega
  · intro l r hr
    have hrge : ctr ≤ r := by
      simp only [cloneConfig] at hr
      rcases hr with rfl | rfl | rfl | rfl <;> omega
    refine ⟨?_, ?_, ?_, ?_⟩ <;>
      · rw [heapWrite]
        rw [if_neg (by omega)]
        exact hread _ (by omega)

theorem c9_config_clone_independent_witness :
    (c9Cfg.include_paths < 4 ∧ c9Cfg.define_symbols < 4 ∧ c9Cfg.undefine_symbols < 4
        ∧ c9Cfg.start_with_declarations < 4)
      ∧ (((cloneConfig c9Heap c9Cfg 4).2.1 (cloneConfig c9Heap c9Cfg 4).1.include_paths
            = c9Heap c9Cfg.include_paths
          ∧ (cloneConfig c9Heap c9Cfg 4).2.1 (cloneConfig c9Heap c9Cfg 4).1.define_symbols
            = c9Heap c9Cfg.define_symbols
          ∧ (cloneConfig c9Heap c9Cfg 4).2.1 (cloneConfig c9Heap c9Cfg 4).1.undefine_symbols
            = c9Heap c9Cfg.undefine_symbols
          ∧ (cloneConfig c9Heap c9Cfg 4).2.1 (cloneConfig c9Heap c9Cfg 4).1.start_with_declarations
            = c9Heap c9Cfg.start_with_declarations)
        ∧ ∀ (l : List String) (r : Nat),
            (r = (cloneConfig c9Heap c9Cfg 4).1.include_paths
              ∨ r = (cloneConfig c9Heap c9Cfg 4).1.define_symbols
              ∨ r = (cloneConfig c9Heap c9Cfg 4).1.undefine_symbols
              ∨ r = (cloneConfig c9Heap c9Cfg 4).1.start_with_declarations) →
            heapWrite (cloneConfig c9Heap c9Cfg 4).2.1 r l c9Cfg.include_paths
                = c9Heap c9Cfg.include_paths
              ∧ heapWrite (cloneConfig c9Heap c9Cfg 4).2.1 r l c9Cfg.define_symbols
                = c9Heap c9Cfg.define_symbols
              ∧ heapWrite (cloneConfig c9Heap c9Cfg 4).2.1 r l c9Cfg.undefine_symbols
                = c9Heap c9Cfg.undefine_symbols
              ∧ heapWrite (cloneConfig c9Heap c9Cfg 4).2.1 r l c9Cfg.start_with_declarations
                = c9Heap c9Cfg.start_with_declarations) :=
  ⟨by decide,
    c9_config_clone_independent c9Heap c9Cfg 4 (by decide) (by decide) (by decide) (by decide)⟩

/-- C4: for every collected `declarated_t` wrapper whose declaration is a
class, the relinker rewrites the reference to the canonical object when the
key is in the canonical map, and otherwise leaves the reference unchanged
while reporting a warning naming the entity; non-class wrappers are left
unchanged, and the pass always yields a full output list (no error stops the
merge). -/
theorem c4_relink_behavior (a : Arena) (lv : LeavedClasses) (ws : List DeclaratedWrapper)
    (t : Nat) (w : DeclaratedWrapper) (hw : ws.get? t = some w) :
    (relink_declarated_types a lv ws).1.length = ws.length
      ∧ ((getD a w.declaration).kind = DKind.classK →
          (∀ c, lookupLeaved lv (create_key a w.declaration) = some c →
              (relink_declarated_types a lv ws).1.get? t = some { declaration := c })
            ∧ (lookupLeaved lv (create_key a w.declaration) = none →
                (relink_declarated_types a lv ws).1.get? t = some w
                  ∧ ("Unable to find out actual class definition: "
                      ++ (getD a w.declaration).name) ∈ (relink_declarated_types a lv ws).2))
      ∧ ((getD a w.declaration).kind ≠ DKind.classK →
          (relink_declarated_types a lv ws).1.get? t = some w) := by
  have hmem : w ∈ ws := List.get?_mem hw
  have hget : (relink_declarated_types a lv ws).1.get? t = some (relinkOne a lv w) := by
    show (ws.map (relinkOne a lv)).get? t = some (relinkOne a lv w)
    rw [List.get?_eq_getElem?, List.getElem?_map, ← List.get?_eq_getElem?, hw]
    rfl
  refine ⟨by simp [relink_declarated_types], ?_, ?_⟩
  · intro hk
    refine ⟨?_, ?_⟩
    · intro c hc
      rw [hget]
      simp [relinkOne, hk, hc]
    · intro hc
      refine ⟨?_, ?_⟩
      · rw [hget]
        simp [relinkOne, hk, hc]
      · have hwarn : relinkWarn a lv w
            = some ("Unable to find out actual class definition: "
                ++ (getD a w.declaration).name) := by
          simp [relinkWarn, hk, hc]
        exact List.mem_filterMap.mpr ⟨w, hmem, hwarn⟩
  · intro hk
    rw [hget]
    simp [relinkOne, hk]

theorem c4_relink_behavior_witness :
    c4Ws.get? 0 = some { declaration := 0 }
      ∧ ((relink_declarated_types c4Arena c4Lv c4Ws).1.length = c4Ws.length
        ∧ ((getD c4Arena (0 : Nat)).kind = DKind.classK →
            (∀ c, lookupLeaved c4Lv (create_key c4Arena (0 : Nat)) = some c →
                (relink_declarated_types c4Arena c4Lv c4Ws).1.get? 0 = some { declaration := c })
              ∧ (lookupLeaved c4Lv (create_key c4Arena (0 : Nat)) = none →
                  (relink_declarated_types c4Arena c4Lv c4Ws).1.get? 0
                      = some { declaration := 0 }
                    ∧ ("Unable to find out actual class definition: "
                        ++ (getD c4Arena (0 : Nat)).name)
                        ∈ (relink_declarated_types c4Arena c4Lv c4Ws).2))
        ∧ ((getD c4Arena (0 : Nat)).kind ≠ DKind.classK →
            (relink_declarated_types c4Arena c4Lv c4Ws).1.get? 0
                = some { declaration := 0 })) :=
  ⟨rfl, c4_relink_behavior c4Arena c4Lv c4Ws 0 { declaration := 0 } rfl⟩

/-- Case analysis of one `cloneOpt` step. -/
theorem cloneOpt_cases (ro : Option CType) (c : Nat) (ro2 : Option CType) (c2 : Nat)
    (h : cloneOpt ro c = some (ro2, c2)) :
    (ro = none ∧ ro2 = none ∧ c2 = c)
      ∨ ∃ r r2, ro = some r ∧ ro2 = some r2 ∧ cloneT r c = some (r2, c2) := by
  cases ro with
  | none =>
    simp only [cloneOpt, Option.some.injEq, Prod.mk.injEq] at h
    exact Or.inl ⟨rfl, h.1.symm, h.2.symm⟩
  | some r =>
    cases hr : cloneT r c with
    | none => simp [cloneOpt, hr] at h
    | some rc =>
      obtain ⟨r2v, c2v⟩ := rc
      simp only [cloneOpt, hr, Option.some.injEq, Prod.mk.injEq] at h
      exact Or.inr ⟨r, r2v, rfl, h.1.symm, by rw [hr, h.2]⟩

mutual

/-- Rendering is invariant under cloning, node by node. -/
theorem cloneT_declString (env : Nat → Option String) :
    ∀ t c t2 c2, cloneT t c = some (t2, c2) → declString env t2 = declString env t
  | CType.fundamental _ _, _, _, _, h => by
    simp only [cloneT, Option.some.injEq, Prod.mk.injEq] at h
    obtain ⟨rfl, rfl⟩ := h
    rfl
  | CType.unknown _, _, _, _, h => by
    simp only [cloneT, Option.some.injEq, Prod.mk.injEq] at h
    obtain ⟨rfl, rfl⟩ := h
    rfl
  | CType.volatileT i b, c, t2, c2, h => by
    cases hb : cloneT b c with
    | none => simp [cloneT, hb] at h
    | some bc =>
      obtain ⟨b2, cb⟩ := bc
      simp only [cloneT, hb, Option.some.injEq, Prod.mk.injEq] at h
      obtain ⟨rfl, rfl⟩ := h
      have ih := cloneT_declString env b c b2 cb hb
      simp only [declString]
      rw [ih]
  | CType.constT i b, c, t2, c2, h => by
    cases hb : cloneT b c with
    | none => simp [cloneT, hb] at h
    | some bc =>
      obtain ⟨b2, cb⟩ := bc
      simp only [cloneT, hb, Option.some.injEq, Prod.mk.injEq] at h
      obtain ⟨rfl, rfl⟩ := h
      have ih := cloneT_declString env b c b2 cb hb
      simp only [declString]
      rw [ih]
  | CType.pointerT i b, c, t2, c2, h => by
    cases hb : cloneT b c with
    | none => simp [cloneT, hb] at h
    | some bc =>
      obtain ⟨b2, cb⟩ := bc
      simp only [cloneT, hb, Option.some.injEq, Prod.mk.injEq] at h
      obtain ⟨rfl, rfl⟩ := h
      have ih := cloneT_declString env b c b2 cb hb
      simp only [declString]
      rw [ih]
  | CType.referenceT i b, c, t2, c2, h => by
    cases hb : cloneT b c with
    | none => simp [cloneT, hb] at h
    | some bc =>
      obtain ⟨b2, cb⟩ := bc
      simp only [cloneT, hb, Option.some.injEq, Prod.mk.injEq] at h
      obtain ⟨rfl, rfl⟩ := h
      have ih := cloneT_declString env b c b2 cb hb
      simp only [declString]
      rw [ih]
  | CType.arrayT i b sz, c, t2, c2, h => by
    cases hb : cloneT b c with
    | none => simp [cloneT, hb] at h
    | some bc =>
      obtain ⟨b2, cb⟩ := bc
      simp only [cloneT, hb, Option.some.injEq, Prod.mk.injEq] at h
      obtain ⟨rfl, rfl⟩ := h
      have ih := cloneT_declString env b c b2 cb hb
      simp only [declString]
      rw [ih]
  | CType.freeFunctionT i ret args, c, t2, c2, h => by
    cases hro : cloneOpt ret c with
    | none => simp [cloneT, hro] at h
    | some rc =>
      obtain ⟨r2, c1⟩ := rc
      cases hla : cloneList args c1 with
      | none => simp [cloneT, hro, hla] at h
      | some ac =>
        obtain ⟨args2, ca⟩ := ac
        simp only [cloneT, hro, hla, Option.some.injEq, Prod.mk.injEq] at h
        obtain ⟨rfl, rfl⟩ := h
        have ihl := cloneList_declString env args c1 args2 ca hla
        rcases cloneOpt_cases ret c r2 c1 hro with ⟨rfl, rfl, rfl⟩ | ⟨r, r2v, hr, hr2, hcl⟩
        · simp only [declString]
        · subst hr
          subst hr2
          have ihr := cloneT_declString env r c r2v c1 hcl
          simp only [declString]
          rw [ihr, ihl]
  | CType.memberFunctionT i cls ret args hc, c, t2, c2, h => by
    cases hro : cloneOpt ret c with
    | none => simp [cloneT, hro] at h
    | some rc =>
      obtain ⟨r2, c1⟩ := rc
      cases hla : cloneList args c1 with
      | none => simp [cloneT, hro, hla] at h
      | some ac =>
        obtain ⟨args2, ca⟩ := ac
        simp only [cloneT, hro, hla, Option.some.injEq, Prod.mk.injEq] at h
        obtain ⟨rfl, rfl⟩ := h
        have ihl := cloneList_declString env args c1 args2 ca hla
        rcases cloneOpt_cases ret c r2 c1 hro with ⟨rfl, rfl, rfl⟩ | ⟨r, r2v, hr, hr2, hcl⟩
        · cases cls <;> simp only [declString]
        · subst hr
          subst hr2
          have ihr := cloneT_declString env r c r2v c1 hcl
          cases cls with
          | none => simp only [declString]
          | some cv =>
            simp only [declString]
            rw [ihr, ihl]
  | CType.memberVariableT i cls vt, c, t2, c2, h => by
    cases vt with
    | none => simp [cloneT] at h
    | some v =>
      cases hv : cloneT v c with
      | none => simp [cloneT, hv] at h
      | some vc =>
        obtain ⟨v2, cv⟩ := vc
        simp only [cloneT, hv, Option.some.injEq, Prod.mk.injEq] at h
        obtain ⟨rfl, rfl⟩ := h
        have ihv := cloneT_declString env v c v2 cv hv
        cases cls with
        | none => simp only [declString]
        | some cl =>
          simp only [declString]
          rw [ihv]
  | CType.declaratedT i d, c, t2, c2, h => by
    simp only [cloneT, Option.some.injEq, Prod.mk.injEq] at h
    obtain ⟨rfl, rfl⟩ := h
    rfl

/-- Rendering of an argument list is invariant under cloning. -/
theorem cloneList_declString (env : Nat → Option String) :
    ∀ ts c ts2 c2, cloneList ts c = some (ts2, c2) →
      declStringList env ts2 = declStringList env ts
  | [], _, _, _, h => by
    simp only [cloneList, Option.some.injEq, Prod.mk.injEq] at h
    obtain ⟨rfl, rfl⟩ := h
    rfl
  | t :: ts, c, ts2, c2, h => by
    cases ht : cloneT t c with
    | none => simp [cloneList, ht] at h
    | some tc =>
      obtain ⟨t2, c1⟩ := tc
      cases hts : cloneList ts c1 with
      | none => simp [cloneList, ht, hts] at h
      | some tsc =>
        obtain ⟨ts2v, c2v⟩ := tsc
        simp only [cloneList, ht, hts, Option.some.injEq, Prod.mk.injEq] at h
        obtain ⟨rfl, rfl⟩ := h
        have ih1 := cloneT_declString env t c t2 c1 ht
        have ih2 := cloneList_declString env ts c1 ts2v c2v hts
        simp only [declStringList]
        rw [ih1, ih2]

end

/-- C6: for every type of the grammar, the rendering of its clone equals its
own rendering, `render(clone(t)) == render(t)`. -/
theorem c6_render_clone (env : Nat → Option String) (t : CType) (c : Nat) (t2 : CType)
    (c2 : Nat) (h : cloneT t c = some (t2, c2)) :
    declString env t2 = declString env t :=
  cloneT_declString env t c t2 c2 h

theorem c6_render_clone_witness :
    cloneT c7In 5 = some (c7Out, 7)
      ∧ declString (fun d => some (String.append "S" (toString d))) c7Out
        = declString (fun d => some (String.append "S" (toString d))) c7In :=
  ⟨rfl, c6_render_clone (fun d => some (String.append "S" (toString d))) c7In 5 c7Out 7 rfl⟩

mutual

/-- Clone allocation facts: the counter never decreases, the declaration
references are preserved exactly, and every mutable node of the result
carries an allocation id at or above the starting counter. -/
theorem cloneT_props : ∀ t c t2 c2, cloneT t c = some (t2, c2) →
    c ≤ c2 ∧ declIds t2 = declIds t ∧ ∀ x ∈ mutableOids t2, c ≤ x
  | CType.fundamental _ _, _, _, _, h => by
    simp only [cloneT, Option.some.injEq, Prod.mk.injEq] at h
    obtain ⟨rfl, rfl⟩ := h
    exact ⟨Nat.le_refl _, rfl, by simp [mutableOids]⟩
  | CType.unknown _, _, _, _, h => by
    simp only [cloneT, Option.some.injEq, Prod.mk.injEq] at h
    obtain ⟨rfl, rfl⟩ := h
    exact ⟨Nat.le_refl _, rfl, by simp [mutableOids]⟩
  | CType.volatileT i b, c, t2, c2, h => by
    cases hb : cloneT b c with
    | none => simp [cloneT, hb] at h
    | some bc =>
      obtain ⟨b2, cb⟩ := bc
      simp only [cloneT, hb, Option.some.injEq, Prod.mk.injEq] at h
      obtain ⟨rfl, rfl⟩ := h
      obtain ⟨hle, hdecl, hfresh⟩ := cloneT_props b c b2 cb hb
      refine ⟨by omega, by simpa [declIds] using hdecl, ?_⟩
      intro x hx
      simp only [mutableOids, List.mem_cons] at hx
      rcases hx with rfl | hx
      · omega
      · exact hfresh x hx
  | CType.constT i b, c, t2, c2, h => by
    cases hb : cloneT b c with
    | none => simp [cloneT, hb] at h
    | some bc =>
      obtain ⟨b2, cb⟩ := bc
      simp only [cloneT, hb, Option.some.injEq, Prod.mk.injEq] at h
      obtain ⟨rfl, rfl⟩ := h
      obtain ⟨hle, hdecl, hfresh⟩ := cloneT_props b c b2 cb hb
      refine ⟨by omega, by simpa [declIds] using hdecl, ?_⟩
      intro x hx
      simp only [mutableOids, List.mem_cons] at hx
      rcases hx with rfl | hx
      · omega
      · exact hfresh x hx
  | CType.pointerT i b, c, t2, c2, h => by
    cases hb : cloneT b c with
    | none => simp [cloneT, hb] at h
    | some bc =>
      obtain ⟨b2, cb⟩ := bc
      simp only [cloneT, hb, Option.some.injEq, Prod.mk.injEq] at h
      obtain ⟨rfl, rfl⟩ := h
      obtain ⟨hle, hdecl, hfresh⟩ := cloneT_props b c b2 cb hb
      refine ⟨by omega, by simpa [declIds] using hdecl, ?_⟩
      intro x hx
      simp only [mutableOids, List.mem_cons] at hx
      rcases hx with rfl | hx
      · omega
      · exact hfresh x hx
  | CType.referenceT i b, c, t2, c2, h => by
    cases hb : cloneT b c with
    | none => simp [cloneT, hb] at h
    | some bc =>
      obtain ⟨b2, cb⟩ := bc
      simp only [cloneT, hb, Option.some.injEq, Prod.mk.injEq] at h
      obtain ⟨rfl, rfl⟩ := h
      obtain ⟨hle, hdecl, hfresh⟩ := cloneT_props b c b2 cb hb
      refine ⟨by omega, by simpa [declIds] using hdecl, ?_⟩
      intro x hx
      simp only [mutableOids, List.mem_cons] at hx
      rcases hx with rfl | hx
      · omega
      · exact hfresh x hx
  | CType.arrayT i b sz, c, t2, c2, h => by
    cases hb : cloneT b c with
    | none => simp [cloneT, hb] at h
    | some bc =>
      obtain ⟨b2, cb⟩ := bc
      simp only [cloneT, hb, Option.some.injEq, Prod.mk.injEq] at h
      obtain ⟨rfl, rfl⟩ := h
      obtain ⟨hle, hdecl, hfresh⟩ := cloneT_props b c b2 cb hb
      refine ⟨by omega, by simpa [declIds] using hdecl, ?_⟩
      intro x hx
      simp only [mutableOids, List.mem_cons] at hx
      rcases hx with rfl | hx
      · omega
      · exact hfresh x hx
  | CType.freeFunctionT i ret args, c, t2, c2, h => by
    cases hro : cloneOpt ret c with
    | none => simp [cloneT, hro] at h
    | some rc =>
      obtain ⟨r2, c1⟩ := rc
      cases hla : cloneList args c1 with
      | none => simp [cloneT, hro, hla] at h
      | some ac =>
        obtain ⟨args2, ca⟩ := ac
        simp only [cloneT, hro, hla, Option.some.injEq, Prod.mk.injEq] at h
        obtain ⟨rfl, rfl⟩ := h
        obtain ⟨hlo, hdo, hfo⟩ := cloneOpt_props ret c r2 c1 hro
        obtain ⟨hll, hdl, hfl⟩ := cloneList_props args c1 args2 ca hla
        refine ⟨by omega, ?_, ?_⟩
        · simp only [declIds]
          rw [hdo, hdl]
        · intro x hx
          simp only [mutableOids, List.mem_cons, List.mem_append] at hx
          rcases hx with rfl | hx | hx
          · omega
          · exact hfo x hx
          · have := hfl x hx
            omega
  | CType.memberFunctionT i cls ret args hc, c, t2, c2, h => by
    cases hro : cloneOpt ret c with
    | none => simp [cloneT, hro] at h
    | some rc =>
      obtain ⟨r2, c1⟩ := rc
      cases hla : cloneList args c1 with
      | none => simp [cloneT, hro, hla] at h
      | some ac =>
        obtain ⟨args2, ca⟩ := ac
        simp only [cloneT, hro, hla, Option.some.injEq, Prod.mk.injEq] at h
        obtain ⟨rfl, rfl⟩ := h
        obtain ⟨hlo, hdo, hfo⟩ := cloneOpt_props ret c r2 c1 hro
        obtain ⟨hll, hdl, hfl⟩ := cloneList_props args c1 args2 ca hla
        refine ⟨by omega, ?_, ?_⟩
        · simp only [declIds]
          rw [hdo, hdl]
        · intro x hx
          simp only [mutableOids, List.mem_cons, List.mem_append] at hx
          rcases hx with rfl | hx | hx
          · omega
          · exact hfo x hx
          · have := hfl x hx
            omega
  | CType.memberVariableT i cls vt, c, t2, c2, h => by
    cases vt with
    | none => simp [cloneT] at h
    | some v =>
      cases hv : cloneT v c with
      | none => simp [cloneT, hv] at h
      | some vc =>
        obtain ⟨v2, cv⟩ := vc
        simp only [cloneT, hv, Option.some.injEq, Prod.mk.injEq] at h
        obtain ⟨rfl, rfl⟩ := h
        obtain ⟨hle, hdecl, hfresh⟩ := cloneT_props v c v2 cv hv
        refine ⟨by omega, ?_, ?_⟩
        · simp only [declIds, declIdsOpt]
          rw [hdecl]
        · intro x hx
          simp only [mutableOids, mutableOidsOpt, List.mem_cons] at hx
          rcases hx with rfl | hx
          · omega
          · exact hfresh x hx
  | CType.declaratedT i d, c, t2, c2, h => by
    simp only [cloneT, Option.some.injEq, Prod.mk.injEq] at h
    obtain ⟨rfl, rfl⟩ := h
    refine ⟨Nat.le_succ _, rfl, ?_⟩
    intro x hx
    simp only [mutableOids, List.mem_singleton] at hx
    omega

theorem cloneOpt_props : ∀ ro c ro2 c2, cloneOpt ro c = some (ro2, c2) →
    c ≤ c2 ∧ declIdsOpt ro2 = declIdsOpt ro ∧ ∀ x ∈ mutableOidsOpt ro2, c ≤ x
  | none, _, _, _, h => by
    simp only [cloneOpt, Option.some.injEq, Prod.mk.injEq] at h
    obtain ⟨rfl, rfl⟩ := h
    exact ⟨Nat.le_refl _, rfl, by simp [mutableOidsOpt]⟩
  | some r, c, ro2, c2, h => by
    cases hr : cloneT r c with
    | none => simp [cloneOpt, hr] at h
    | some rc =>
      obtain ⟨r2, cr⟩ := rc
      simp only [cloneOpt, hr, Option.some.injEq, Prod.mk.injEq] at h
      obtain ⟨rfl, rfl⟩ := h
      obtain ⟨hle, hdecl, hfresh⟩ := cloneT_props r c r2 cr hr
      exact ⟨hle, by simpa [declIdsOpt] using hdecl, by simpa [mutableOidsOpt] using hfresh⟩

theorem cloneList_props : ∀ ts c ts2 c2, cloneList ts c = some (ts2, c2) →
    c ≤ c2 ∧ declIdsList ts2 = declIdsList ts ∧ ∀ x ∈ mutableOidsList ts2, c ≤ x
  | [], _, _, _, h => by
    simp only [cloneList, Option.some.injEq, Prod.mk.injEq] at h
    obtain ⟨rfl, rfl⟩ := h
    exact ⟨Nat.le_refl _, rfl, by simp [mutableOidsList]⟩
  | t :: ts, c, ts2, c2, h => by
    cases ht : cloneT t c with
    | none => simp [cloneList, ht] at h
    | some tc =>
      obtain ⟨t2, c1⟩ := tc
      cases hts : cloneList ts c1 with
      | none => simp [cloneList, ht, hts] at h
      | some tsc =>
        obtain ⟨ts2v, c2v⟩ := tsc
        simp only [cloneList, ht, hts, Option.some.injEq, Prod.mk.injEq] at h
        obtain ⟨rfl, rfl⟩ := h
        obtain ⟨hle1, hd1, hf1⟩ := cloneT_props t c t2 c1 ht
        obtain ⟨hle2, hd2, hf2⟩ := cloneList_props ts c1 ts2v c2v hts
        refine ⟨by omega, ?_, ?_⟩
        · simp only [declIdsList]
          rw [hd1, hd2]
        · intro x hx
          simp only [mutableOidsList, List.mem_append] at hx
          rcases hx with hx | hx
          · exact hf1 x hx
          · have := hf2 x hx
            omega

end

/-- Per-constructor shape of one `clone` step. -/
theorem cloneT_shape (t : CType) (c : Nat) (t2 : CType) (c2 : Nat)
    (h : cloneT t c = some (t2, c2)) : CloneShape t c t2 c2 := by
  unfold CloneShape
  refine ⟨?_, ?_, ?_, ?_, ?_, ?_, ?_, ?_, ?_, ?_, ?_⟩
  · rintro i n rfl
    simp only [cloneT, Option.some.injEq, Prod.mk.injEq] at h
    exact ⟨h.1.symm, h.2.symm⟩
  · rintro i rfl
    simp only [cloneT, Option.some.injEq, Prod.mk.injEq] at h
    exact ⟨h.1.symm, h.2.symm⟩
  · rintro i b rfl
    cases hb : cloneT b c with
    | none => simp [cloneT, hb] at h
    | some bc =>
      obtain ⟨b2, cb⟩ := bc
      simp only [cloneT, hb, Option.some.injEq, Prod.mk.injEq] at h
      exact ⟨b2, cb, rfl, h.1.symm, h.2.symm⟩
  · rintro i b rfl
    cases hb : cloneT b c with
    | none => simp [cloneT, hb] at h
    | some bc =>
      obtain ⟨b2, cb⟩ := bc
      simp only [cloneT, hb, Option.some.injEq, Prod.mk.injEq] at h
      exact ⟨b2, cb, rfl, h.1.symm, h.2.symm⟩
  · rintro i b rfl
    cases hb : cloneT b c with
    | none => simp [cloneT, hb] at h
    | some bc =>
      obtain ⟨b2, cb⟩ := bc
      simp only [cloneT, hb, Option.some.injEq, Prod.mk.injEq] at h
      exact ⟨b2, cb, rfl, h.1.symm, h.2.symm⟩
  · rintro i b rfl
    cases hb : cloneT b c with
    | none => simp [cloneT, hb] at h
    | some bc =>
      obtain ⟨b2, cb⟩ := bc
      simp only [cloneT, hb, Option.some.injEq, Prod.mk.injEq] at h
      exact ⟨b2, cb, rfl, h.1.symm, h.2.symm⟩
  · rintro i b sz rfl
    cases hb : cloneT b c with
    | none => simp [cloneT, hb] at h
    | some bc =>
      obtain ⟨b2, cb⟩ := bc
      simp only [cloneT, hb, Option.some.injEq, Prod.mk.injEq] at h
      exact ⟨b2, cb, rfl, h.1.symm, h.2.symm⟩
  · rintro i ret args rfl
    cases hro : cloneOpt ret c with
    | none => simp [cloneT, hro] at h
    | some rc =>
      obtain ⟨r2, c1⟩ := rc
      cases hla : cloneList args c1 with
      | none => simp [cloneT, hro, hla] at h
      | some ac =>
        obtain ⟨args2, ca⟩ := ac
        simp only [cloneT, hro, hla, Option.some.injEq, Prod.mk.injEq] at h
        exact ⟨r2, c1, args2, ca, rfl, hla, h.1.symm, h.2.symm⟩
  · rintro i cls ret args hc rfl
    cases hro : cloneOpt ret c with
    | none => simp [cloneT, hro] at h
    | some rc =>
      obtain ⟨r2, c1⟩ := rc
      cases hla : cloneList args c1 with
      | none => simp [cloneT, hro, hla] at h
      | some ac =>
        obtain ⟨args2, ca⟩ := ac
        simp only [cloneT, hro, hla, Option.some.injEq, Prod.mk.injEq] at h
        exact ⟨r2, c1, args2, ca, rfl, hla, h.1.symm, h.2.symm⟩
  · rintro i cls vt rfl
    cases vt with
    | none => simp [cloneT] at h
    | some v =>
      cases hv : cloneT v c with
      | none => simp [cloneT, hv] at h
      | some vc =>
        obtain ⟨v2, cv⟩ := vc
        simp only [cloneT, hv, Option.some.injEq, Prod.mk.injEq] at h
        exact ⟨v, v2, cv, rfl, hv, h.1.symm, h.2.symm⟩
  · rintro i d rfl
    simp only [cloneT, Option.some.injEq, Prod.mk.injEq] at h
    exact ⟨h.1.symm, h.2.symm⟩

/-- C7: `clone` never duplicates a declaration object (the declaration
references of the clone are exactly those of the original, shared) and never
shares mutable type nodes (every compound/callable/declarated node of the
clone, outside the owning-class references that are deliberately kept, is a
fresh object absent from the original); fundamental and unknown nodes are
returned as the identical instance, compound bases are recursively cloned,
callable nodes keep the owning-class reference the same object, and a
declarated clone is a new wrapper around the same declaration. -/
theorem c7_clone_sharing (t : CType) (c : Nat) (t2 : CType) (c2 : Nat)
    (hall : ∀ j ∈ allOids t, j < c) (h : cloneT t c = some (t2, c2)) :
    declIds t2 = declIds t
      ∧ (∀ x ∈ mutableOids t2, x ∉ allOids t)
      ∧ CloneShape t c t2 c2 := by
  refine ⟨(cloneT_props t c t2 c2 h).2.1, ?_, cloneT_shape t c t2 c2 h⟩
  intro x hx hmem
  have h1 := (cloneT_props t c t2 c2 h).2.2 x hx
  have h2 := hall x hmem
  omega

theorem c7_clone_sharing_witness :
    (∀ j ∈ allOids c7In, j < 5)
      ∧ (declIds c7Out = declIds c7In
        ∧ (∀ x ∈ mutableOids c7Out, x ∉ allOids c7In)
        ∧ CloneShape c7In 5 c7Out 7) :=
  ⟨by decide, c7_clone_sharing c7In 5 c7Out 7 (by decide) rfl⟩

/-! ### Arena access and frame lemmas -/

theorem getD_modify (a : Arena) (i j : Nat) (f : Decl → Decl) :
    getD (modifyDecl a i f) j = if j = i ∧ i < a.length then f (getD a i) else getD a j := by
  have hL : getD (modifyDecl a i f) j = ((a.set i (f (getD a i)))[j]?).getD default := by
    unfold modifyDecl getD
    rw [List.getD_eq_getElem?_getD]
  have hR : getD a j = (a[j]?).getD default := by
    unfold getD
    rw [List.getD_eq_getElem?_getD]
  rw [hL, List.getElem?_set]
  by_cases hij : i = j
  · subst hij
    by_cases hl : i < a.length
    · rw [if_pos rfl, if_pos hl, if_pos ⟨rfl, hl⟩]
      rfl
    · rw [if_pos rfl, if_neg hl, if_neg (fun hc => hl hc.2), hR]
      rw [List.getElem?_eq_none (by omega)]
  · rw [if_neg hij, if_neg (fun hc => hij hc.1.symm), hR]

theorem length_modifyDecl (a : Arena) (i : Nat) (f : Decl → Decl) :
    (modifyDecl a i f).length = a.length := by
  simp [modifyDecl]

theorem getD_modify_self (a : Arena) (i : Nat) (f : Decl → Decl) (h : i < a.length) :
    getD (modifyDecl a i f) i = f (getD a i) := by
  rw [getD_modify, if_pos ⟨rfl, h⟩]

theorem getD_modify_other (a : Arena) (i j : Nat) (f : Decl → Decl) (h : j ≠ i) :
    getD (modifyDecl a i f) j = getD a j := by
  rw [getD_modify, if_neg (by intro hc; exact h hc.1)]

theorem frameEq_refl (a : Arena) : FrameEq a a :=
  ⟨rfl, fun _ => rfl, fun _ => rfl, fun _ => rfl, fun _ => rfl, fun _ => rfl⟩

theorem frameEq_trans {a b c : Arena} (h1 : FrameEq a b) (h2 : FrameEq b c) : FrameEq a c :=
  ⟨h2.len.trans h1.len,
   fun j => (h2.kind j).trans (h1.kind j),
   fun j => (h2.name j).trans (h1.name j),
   fun j => (h2.parent j).trans (h1.parent j),
   fun j => (h2.loc j).trans (h1.loc j),
   fun j => (h2.sig j).trans (h1.sig j)⟩

theorem edgeOnly_refl (a : Arena) : EdgeOnly a a :=
  ⟨frameEq_refl a, fun _ => rfl⟩

theorem edgeOnly_trans {a b c : Arena} (h1 : EdgeOnly a b) (h2 : EdgeOnly b c) : EdgeOnly a c :=
  ⟨frameEq_trans h1.frame h2.frame, fun j => (h2.decls j).trans (h1.decls j)⟩

/-- Modifying only the `bases`/`derived` fields of one declaration is an
`EdgeOnly` frame. -/
theorem edgeOnly_modify (a : Arena) (i : Nat) (f : Decl → Decl)
    (hk : ∀ d, (f d).kind = d.kind) (hn : ∀ d, (f d).name = d.name)
    (hp : ∀ d, (f d).parent = d.parent) (hl : ∀ d, (f d).location = d.location)
    (hs : ∀ d, (f d).sig = d.sig) (hd : ∀ d, (f d).declarations = d.declarations) :
    EdgeOnly a (modifyDecl a i f) := by
  refine ⟨⟨length_modifyDecl a i f, ?_, ?_, ?_, ?_, ?_⟩, ?_⟩ <;>
    · intro j
      rw [getD_modify]
      split_ifs with hc
      · rw [hc.1]
        first
          | exact hk (getD a i)
          | exact hn (getD a i)
          | exact hp (getD a i)
          | exact hl (getD a i)
          | exact hs (getD a i)
          | exact hd (getD a i)
      · rfl

/-- Modifying only the `declarations` field of one declaration is a
`FrameEq` frame. -/
theorem frame_modify (a : Arena) (i : Nat) (f : Decl → Decl)
    (hk : ∀ d, (f d).kind = d.kind) (hn : ∀ d, (f d).name = d.name)
    (hp : ∀ d, (f d).parent = d.parent) (hl : ∀ d, (f d).location = d.location)
    (hs : ∀ d, (f d).sig = d.sig) :
    FrameEq a (modifyDecl a i f) := by
  refine ⟨length_modifyDecl a i f, ?_, ?_, ?_, ?_, ?_⟩ <;>
    · intro j
      rw [getD_modify]
      split_ifs with hc
      · rw [hc.1]
        first
          | exact hk (getD a i)
          | exact hn (getD a i)
          | exact hp (getD a i)
          | exact hl (getD a i)
          | exact hs (getD a i)
      · rfl

theorem declaration_path_aux_frame {a b : Arena} (hf : FrameEq a b) :
    ∀ fuel i, declaration_path_aux b fuel i = declaration_path_aux a fuel i := by
  intro fuel
  induction fuel with
  | zero => intro i; rfl
  | succ n ih =>
    intro i
    simp only [declaration_path_aux, hf.parent i, hf.name i]
    cases (getD a i).parent with
    | none => rfl
    | some p =>
      dsimp only
      rw [ih p]

theorem create_key_frame {a b : Arena} (hf : FrameEq a b) (i : Nat) :
    create_key b i = create_key a i := by
  unfold create_key declaration_path
  rw [hf.len, declaration_path_aux_frame hf, hf.loc i]

theorem hedgeEq_frame {a b : Arena} (hf : FrameEq a b) (x y : HEdge) :
    hedgeEq b x y = hedgeEq a x y := by
  unfold hedgeEq
  rw [create_key_frame hf, create_key_frame hf]

theorem containsEdge_frame {a b : Arena} (hf : FrameEq a b) (l : List HEdge) (e : HEdge) :
    containsEdge b l e = containsEdge a l e := by
  unfold containsEdge
  induction l with
  | nil => rfl
  | cons x xs ih => simp only [List.any_cons, ih, hedgeEq_frame hf]

theorem updFirstEdge_frame {a b : Arena} (hf : FrameEq a b) (e : HEdge) (r : Nat) :
    ∀ l, updFirstEdge b e r l = updFirstEdge a e r l := by
  intro l
  induction l with
  | nil => rfl
  | cons x xs ih =>
    simp only [updFirstEdge, hedgeEq_frame hf, ih]

/-- Chained edge-only modification. -/
theorem edgeOnly_modify_any (a x : Arena) (hx : EdgeOnly a x) (n : Nat) (f : Decl → Decl)
    (hk : ∀ d, (f d).kind = d.kind) (hn : ∀ d, (f d).name = d.name)
    (hp : ∀ d, (f d).parent = d.parent) (hl : ∀ d, (f d).location = d.location)
    (hs : ∀ d, (f d).sig = d.sig) (hd : ∀ d, (f d).declarations = d.declarations) :
    EdgeOnly a (modifyDecl x n f) :=
  edgeOnly_trans hx (edgeOnly_modify x n f hk hn hp hl hs hd)

theorem joinBases_edgeOnly (lv : LeavedClasses) (lc : Nat) (a : Arena) (e : HEdge) :
    EdgeOnly a (joinBases lv lc a e) := by
  unfold joinBases
  cases lookupLeaved lv (create_key a e.related_class) with
  | none => exact edgeOnly_refl a
  | some lb =>
    dsimp only
    split <;> split <;>
      (refine edgeOnly_modify_any a _ (edgeOnly_modify a _ _ ?_ ?_ ?_ ?_ ?_ ?_) _ _
          ?_ ?_ ?_ ?_ ?_ ?_ <;> (intro d; rfl))

theorem joinDerived_edgeOnly (lv : LeavedClasses) (lc : Nat) (a : Arena) (e : HEdge) :
    EdgeOnly a (joinDerived lv lc a e) := by
  unfold joinDerived
  cases lookupLeaved lv (create_key a e.related_class) with
  | none => exact edgeOnly_refl a
  | some ld =>
    dsimp only
    split <;> split <;>
      first
        | exact edgeOnly_refl a
        | (refine edgeOnly_modify a _ _ ?_ ?_ ?_ ?_ ?_ ?_ <;> (intro d; rfl))
        | (refine edgeOnly_modify_any a _ (edgeOnly_modify a _ _ ?_ ?_ ?_ ?_ ?_ ?_) _ _
            ?_ ?_ ?_ ?_ ?_ ?_ <;> (intro d; rfl))

theorem edgeOnly_foldl {β : Type} (g : Arena → β → Arena)
    (hg : ∀ x b0, EdgeOnly x (g x b0)) :
    ∀ (l : List β) (a : Arena), EdgeOnly a (l.foldl g a)
  | [], a => edgeOnly_refl a
  | b :: l, a => edgeOnly_trans (hg a b) (edgeOnly_foldl g hg l (g a b))

theorem repairClass_edgeOnly (lv : LeavedClasses) (a : Arena) (i : Nat) :
    EdgeOnly a (repairClass lv a i) := by
  unfold repairClass
  cases lookupLeaved lv (create_key a i) with
  | none => exact edgeOnly_refl a
  | some lc =>
    dsimp only
    exact edgeOnly_trans
      (edgeOnly_foldl _ (fun x b0 => joinBases_edgeOnly lv lc x b0) _ a)
      (edgeOnly_foldl _ (fun x b0 => joinDerived_edgeOnly lv lc x b0) _ _)

theorem removeDuplicate_frame (lv : LeavedClasses) (st : Arena × List Nat) (i : Nat) :
    FrameEq st.1 (removeDuplicate lv st i).1 := by
  unfold removeDuplicate
  cases lookupLeaved lv (create_key st.1 i) with
  | none => exact frameEq_refl st.1
  | some c =>
    dsimp only
    split
    · exact frameEq_refl st.1
    · cases (getD st.1 i).parent with
      | some p =>
        dsimp only
        apply frame_modify <;> intro d <;> rfl
      | none => exact frameEq_refl st.1

theorem removal_foldl_frame (lv : LeavedClasses) :
    ∀ (l : List Nat) (st : Arena × List Nat),
      FrameEq st.1 ((l.foldl (removeDuplicate lv) st).1)
  | [], st => frameEq_refl st.1
  | i :: l, st =>
    frameEq_trans (removeDuplicate_frame lv st i) (removal_foldl_frame lv l _)

/-- The edge-repair loop of `_join_class_hierarchy` changes only
`bases`/`derived` lists. -/
theorem join_phase2_edgeOnly (f : Forest) :
    EdgeOnly f.arena
      ((classesOf f).foldl (repairClass (build_leaved_classes f.arena (classesOf f))) f.arena) :=
  edgeOnly_foldl _ (fun x b0 => repairClass_edgeOnly _ x b0) _ f.arena

/-- The whole `_join_class_hierarchy` pass preserves every declaration's
kind, name, parent, location and signature — hence all identity keys. -/
theorem join_frame (f : Forest) :
    FrameEq f.arena (join_class_hierarchy f).2.arena := by
  unfold join_class_hierarchy
  dsimp only
  exact frameEq_trans (join_phase2_edgeOnly f).frame
    (removal_foldl_frame (build_leaved_classes f.arena (classesOf f)) (classesOf f)
      ((classesOf f).foldl (repairClass (build_leaved_classes f.arena (classesOf f))) f.arena,
        f.top))

/-! ### Canonical-map lemmas -/

theorem lookupLeaved_append (m1 m2 : LeavedClasses) (k : DeclKey) :
    lookupLeaved (m1 ++ m2) k = (lookupLeaved m1 k).or (lookupLeaved m2 k) := by
  unfold lookupLeaved
  rw [List.find?_append]
  cases List.find? (fun kv => decide (kv.1 = k)) m1 with
  | none => rw [Option.none_or]; rfl
  | some kv => rw [Option.or_some]; rfl

theorem lookupLeaved_single (k0 : DeclKey) (c : Nat) (k : DeclKey) :
    lookupLeaved [(k0, c)] k = if k0 = k then some c else none := by
  unfold lookupLeaved
  by_cases h : k0 = k
  · simp [List.find?, h]
  · simp [List.find?, h]

/-- The canonical map looks up to the first class in scan order whose key
matches. -/
theorem build_leaved_lookup (a : Arena) (cs : List Nat) (k : DeclKey) :
    lookupLeaved (build_leaved_classes a cs) k
      = cs.find? (fun j => decide (create_key a j = k)) := by
  have H : ∀ (cs : List Nat) (m : LeavedClasses),
      lookupLeaved (cs.foldl (fun m i =>
          let kk := create_key a i
          if (lookupLeaved m kk).isSome then m else m ++ [(kk, i)]) m) k
        = (lookupLeaved m k).or (cs.find? (fun j => decide (create_key a j = k))) := by
    intro cs
    induction cs with
    | nil =>
      intro m
      simp [List.find?, Option.or_none]
    | cons c0 cs ih =>
      intro m
      rw [List.foldl_cons, ih]
      dsimp only
      by_cases hk : create_key a c0 = k
      · have hp : (fun j => decide (create_key a j = k)) c0 = true := by simp [hk]
        rw [@List.find?_cons_of_pos _ (fun j => decide (create_key a j = k)) c0 cs hp]
        by_cases hc : (lookupLeaved m (create_key a c0)).isSome
        · rw [if_pos hc]
          obtain ⟨v, hv⟩ := Option.isSome_iff_exists.mp hc
          rw [hk] at hv
          rw [hv, Option.or_some, Option.or_some]
        · rw [if_neg hc, lookupLeaved_append, lookupLeaved_single, if_pos hk]
          have hnone : lookupLeaved m k = none := by
            rw [← hk]
            exact Option.not_isSome_iff_eq_none.mp hc
          rw [hnone]
          simp [Option.none_or, Option.or_some]
      · have hp : ¬ (fun j => decide (create_key a j = k)) c0 = true := by simp [hk]
        rw [@List.find?_cons_of_neg _ (fun j => decide (create_key a j = k)) c0 cs hp]
        by_cases hc : (lookupLeaved m (create_key a c0)).isSome
        · rw [if_pos hc]
        · rw [if_neg hc, lookupLeaved_append, lookupLeaved_single, if_neg hk, Option.or_none]
  unfold build_leaved_classes
  rw [H]
  have : lookupLeaved ([] : LeavedClasses) k = none := rfl
  rw [this, Option.none_or]

/-- An entry of the canonical map is one of the scanned classes and carries
the key it is stored under. -/
theorem build_leaved_mem (a : Arena) (cs : List Nat) (k : DeclKey) (c : Nat)
    (h : lookupLeaved (build_leaved_classes a cs) k = some c) :
    c ∈ cs ∧ create_key a c = k := by
  rw [build_leaved_lookup] at h
  exact ⟨List.mem_of_find?_eq_some h, by simpa using List.find?_some h⟩

/-- Every scanned class's key is present in the canonical map. -/
theorem build_leaved_covers (a : Arena) (cs : List Nat) (i : Nat) (hi : i ∈ cs) :
    ∃ c, lookupLeaved (build_leaved_classes a cs) (create_key a i) = some c := by
  rw [build_leaved_lookup]
  have : (cs.find? (fun j => decide (create_key a j = create_key a i))).isSome := by
    rw [List.find?_isSome]
    exact ⟨i, hi, by simp⟩
  exact Option.isSome_iff_exists.mp this

/-- A key-consistent canonical map makes the per-wrapper rewrite
idempotent. -/
theorem relinkOne_idem (a : Arena) (lv : LeavedClasses)
    (hcons : ∀ k c, lookupLeaved lv k = some c →
      create_key a c = k ∧ (getD a c).kind = DKind.classK) (w : DeclaratedWrapper) :
    relinkOne a lv (relinkOne a lv w) = relinkOne a lv w := by
  by_cases hk : (getD a w.declaration).kind = DKind.classK
  · cases hl : lookupLeaved lv (create_key a w.declaration) with
    | none =>
      have h1 : relinkOne a lv w = w := by
        simp [relinkOne, hk, hl]
      rw [h1, h1]
    | some c =>
      obtain ⟨hkey, hkind⟩ := hcons _ c hl
      have h1 : relinkOne a lv w = { declaration := c } := by
        simp [relinkOne, hk, hl]
      have h2 : relinkOne a lv { declaration := c } = { declaration := c } := by
        simp [relinkOne, hkind, hkey, hl]
      rw [h1, h2]
  · have h1 : relinkOne a lv w = w := by
      simp [relinkOne, hk]
    rw [h1, h1]

/-- The canonical map produced by `_join_class_hierarchy` is key-consistent
over the rewritten forest: each entry is a class whose key (still unchanged
after the pass) is the key it is stored under. -/
theorem join_map_consistent (f : Forest) (k : DeclKey) (c : Nat)
    (h : lookupLeaved (join_class_hierarchy f).1 k = some c) :
    create_key (join_class_hierarchy f).2.arena c = k
      ∧ (getD (join_class_hierarchy f).2.arena c).kind = DKind.classK := by
  have hlv : (join_class_hierarchy f).1 = build_leaved_classes f.arena (classesOf f) := rfl
  rw [hlv] at h
  obtain ⟨hmem, hkey⟩ := build_leaved_mem f.arena (classesOf f) k c h
  have hframe := join_frame f
  unfold classesOf at hmem
  have hkind : (getD f.arena c).kind = DKind.classK :=
    of_decide_eq_true (List.mem_filter.mp hmem).2
  exact ⟨(create_key_frame hframe c).trans hkey, (hframe.kind c).trans hkind⟩

/-- C8: running the relinker a second time over an already-relinked wrapper
list, with the canonical map and forest produced by the hierarchy
unification, changes no wrapper: every rewrite it would perform assigns the
reference already stored. -/
theorem c8_relink_idempotent (f : Forest) (ws : List DeclaratedWrapper) :
    (relink_declarated_types (join_class_hierarchy f).2.arena (join_class_hierarchy f).1
        (relink_declarated_types (join_class_hierarchy f).2.arena (join_class_hierarchy f).1
          ws).1).1
      = (relink_declarated_types (join_class_hierarchy f).2.arena (join_class_hierarchy f).1
          ws).1 := by
  simp only [relink_declarated_types, List.map_map]
  apply List.map_congr_left
  intro w _
  exact relinkOne_idem (join_class_hierarchy f).2.arena (join_class_hierarchy f).1
    (fun k c hc => join_map_consistent f k c hc) w

/-- Mutating only a declaration's `bases` list leaves every `derived` list
unchanged. -/
theorem derived_after_bases_modify (a : Arena) (n : Nat) (g : Decl → List HEdge) (m : Nat) :
    (getD (modifyDecl a n (fun d => { d with bases := g d })) m).derived
      = (getD a m).derived := by
  rw [getD_modify]
  split_ifs with hc
  · rw [hc.1]
  · rfl

/-- Mutating only a declaration's `derived` list leaves every `bases` list
unchanged. -/
theorem bases_after_derived_modify (a : Arena) (n : Nat) (g : Decl → List HEdge) (m : Nat) :
    (getD (modifyDecl a n (fun d => { d with derived := g d })) m).bases
      = (getD a m).bases := by
  rw [getD_modify]
  split_ifs with hc
  · rw [hc.1]
  · rfl

/-- C1, amended: every edge is resolved through the canonical map and
installed on the canonical owner with its mirror installed on the related
class's canonical object, but the in-place update of an already existing
equal edge happens only while processing `bases` lists (both for the base
edge on the canonical owner and for its mirrored derived edge); while
processing `derived` lists, an already existing equal edge is left
completely unchanged in both directions — only missing edges are
appended. -/
theorem c1_amended_edge_repair (lv : LeavedClasses) (a : Arena) (lc lb : Nat) (e : HEdge)
    (hlc : lc < a.length) (hlb : lb < a.length)
    (hb : lookupLeaved lv (create_key a e.related_class) = some lb) :
    ((((containsEdge a ((getD a lc).bases) { related_class := lb, access := e.access } = false →
        (getD (joinBases lv lc a e) lc).bases
          = (getD a lc).bases ++ [{ related_class := lb, access := e.access }])
      ∧ (containsEdge a ((getD a lc).bases) { related_class := lb, access := e.access } = true →
        (getD (joinBases lv lc a e) lc).bases
          = updFirstEdge a { related_class := lb, access := e.access } lb ((getD a lc).bases)))
    ∧ ((containsEdge a ((getD a lb).derived) { related_class := lc, access := e.access } = false →
        (getD (joinBases lv lc a e) lb).derived
          = (getD a lb).derived ++ [{ related_class := lc, access := e.access }])
      ∧ (containsEdge a ((getD a lb).derived) { related_class := lc, access := e.access } = true →
        (getD (joinBases lv lc a e) lb).derived
          = updFirstEdge a { related_class := lc, access := e.access } lc ((getD a lb).derived))))
    ∧ (((containsEdge a ((getD a lc).derived) { related_class := lb, access := e.access } = true →
        (getD (joinDerived lv lc a e) lc).derived = (getD a lc).derived)
      ∧ (containsEdge a ((getD a lc).derived) { related_class := lb, access := e.access } = false →
        (getD (joinDerived lv lc a e) lc).derived
          = (getD a lc).derived ++ [{ related_class := lb, access := e.access }]))
    ∧ ((containsEdge a ((getD a lb).bases) { related_class := lc, access := e.access } = true →
        (getD (joinDerived lv lc a e) lb).bases = (getD a lb).bases)
      ∧ (containsEdge a ((getD a lb).bases) { related_class := lc, access := e.access } = false →
        (getD (joinDerived lv lc a e) lb).bases
          = (getD a lb).bases ++ [{ related_class := lc, access := e.access }])))) := by
  have E1 : EdgeOnly a (modifyDecl a lc (fun d =>
      { d with bases :=
          updFirstEdge a { related_class := lb, access := e.access } lb d.bases })) := by
    apply edgeOnly_modify <;> intro d <;> rfl
  have E2 : EdgeOnly a (modifyDecl a lc (fun d =>
      { d with bases := d.bases ++ [{ related_class := lb, access := e.access }] })) := by
    apply edgeOnly_modify <;> intro d <;> rfl
  have E3 : EdgeOnly a (modifyDecl a lc (fun d =>
      { d with derived := d.derived ++ [{ related_class := lb, access := e.access }] })) := by
    apply edgeOnly_modify <;> intro d <;> rfl
  refine ⟨⟨⟨?_, ?_⟩, ⟨?_, ?_⟩⟩, ⟨⟨?_, ?_⟩, ⟨?_, ?_⟩⟩⟩
  · intro hc
    unfold joinBases
    rw [hb]
    dsimp only
    split_ifs with h1 h2 h3
    · exfalso
      rw [hc] at h1
      exact Bool.false_ne_true h1
    · exfalso
      rw [hc] at h1
      exact Bool.false_ne_true h1
    · rw [bases_after_derived_modify, getD_modify_self a lc _ hlc]
    · rw [bases_after_derived_modify, getD_modify_self a lc _ hlc]
  · intro hc
    unfold joinBases
    rw [hb]
    dsimp only
    split_ifs with h1
    · rw [bases_after_derived_modify, getD_modify_self a lc _ hlc]
    · rw [bases_after_derived_modify, getD_modify_self a lc _ hlc]
  · intro hc
    unfold joinBases
    rw [hb]
    dsimp only
    split_ifs with h1 h2 h3
    · exfalso
      rw [derived_after_bases_modify, containsEdge_frame E1.frame, hc] at h2
      exact Bool.false_ne_true h2
    · rw [getD_modify_self _ lb _ (by rw [length_modifyDecl]; exact hlb)]
      rw [derived_after_bases_modify]
    · exfalso
      rw [derived_after_bases_modify, containsEdge_frame E2.frame, hc] at h3
      exact Bool.false_ne_true h3
    · rw [getD_modify_self _ lb _ (by rw [length_modifyDecl]; exact hlb)]
      rw [derived_after_bases_modify]
  · intro hc
    unfold joinBases
    rw [hb]
    dsimp only
    split_ifs with h1 h2 h3
    · rw [getD_modify_self _ lb _ (by rw [length_modifyDecl]; exact hlb)]
      rw [updFirstEdge_frame E1.frame, derived_after_bases_modify]
    · exfalso
      rw [derived_after_bases_modify, containsEdge_frame E1.frame, hc] at h2
      exact h2 rfl
    · rw [getD_modify_self _ lb _ (by rw [length_modifyDecl]; exact hlb)]
      rw [updFirstEdge_frame E2.frame, derived_after_bases_modify]
    · exfalso
      rw [derived_after_bases_modify, containsEdge_frame E2.frame, hc] at h3
      exact h3 rfl
  · intro hc
    unfold joinDerived
    rw [hb]
    dsimp only
    split_ifs with h1
    · rfl
    · rw [derived_after_bases_modify]
  · intro hc
    unfold joinDerived
    rw [hb]
    dsimp only
    split_ifs with h1 h2 h3
    · exfalso
      rw [hc] at h1
      exact Bool.false_ne_true h1
    · exfalso
      rw [hc] at h1
      exact Bool.false_ne_true h1
    · rw [getD_modify_self a lc _ hlc]
    · rw [derived_after_bases_modify, getD_modify_self a lc _ hlc]
  · intro hc
    unfold joinDerived
    rw [hb]
    dsimp only
    split_ifs with h1 h2
    · rfl
    · rw [bases_after_derived_modify]
    · exfalso
      rw [bases_after_derived_modify, containsEdge_frame E3.frame, hc] at h2
      exact h2 rfl
  · intro hc
    unfold joinDerived
    rw [hb]
    dsimp only
    split_ifs with h1 h2 h3
    · exfalso
      rw [hc] at h2
      exact Bool.false_ne_true h2
    · rw [getD_modify_self a lb _ hlb]
    · exfalso
      rw [bases_after_derived_modify, containsEdge_frame E3.frame, hc] at h3
      exact Bool.false_ne_true h3
    · rw [getD_modify_self _ lb _ (by rw [length_modifyDecl]; exact hlb)]
      rw [bases_after_derived_modify]

theorem c1_amended_edge_repair_witness :
    ((0 : Nat) < c1wArena.length ∧ (1 : Nat) < c1wArena.length
      ∧ lookupLeaved c1wLv (create_key c1wArena 1) = some 1)
      ∧ ((((containsEdge c1wArena ((getD c1wArena 0).bases)
              { related_class := 1, access := "public" } = false →
            (getD (joinBases c1wLv 0 c1wArena { related_class := 1, access := "public" }) 0).bases
              = (getD c1wArena 0).bases ++ [{ related_class := 1, access := "public" }])
          ∧ (containsEdge c1wArena ((getD c1wArena 0).bases)
              { related_class := 1, access := "public" } = true →
            (getD (joinBases c1wLv 0 c1wArena { related_class := 1, access := "public" }) 0).bases
              = updFirstEdge c1wArena { related_class := 1, access := "public" } 1
                  ((getD c1wArena 0).bases)))
        ∧ ((containsEdge c1wArena ((getD c1wArena 1).derived)
              { related_class := 0, access := "public" } = false →
            (getD (joinBases c1wLv 0 c1wArena { related_class := 1, access := "public" }) 1).derived
              = (getD c1wArena 1).derived ++ [{ related_class := 0, access := "public" }])
          ∧ (containsEdge c1wArena ((getD c1wArena 1).derived)
              { related_class := 0, access := "public" } = true →
            (getD (joinBases c1wLv 0 c1wArena { related_class := 1, access := "public" }) 1).derived
              = updFirstEdge c1wArena { related_class := 0, access := "public" } 0
                  ((getD c1wArena 1).derived))))
      ∧ (((containsEdge c1wArena ((getD c1wArena 0).derived)
              { related_class := 1, access := "public" } = true →
            (getD (joinDerived c1wLv 0 c1wArena { related_class := 1, access := "public" }) 0).derived
              = (getD c1wArena 0).derived)
          ∧ (containsEdge c1wArena ((getD c1wArena 0).derived)
              { related_class := 1, access := "public" } = false →
            (getD (joinDerived c1wLv 0 c1wArena { related_class := 1, access := "public" }) 0).derived
              = (getD c1wArena 0).derived ++ [{ related_class := 1, access := "public" }]))
        ∧ ((containsEdge c1wArena ((getD c1wArena 1).bases)
              { related_class := 0, access := "public" } = true →
            (getD (joinDerived c1wLv 0 c1wArena { related_class := 1, access := "public" }) 1).bases
              = (getD c1wArena 1).bases)
          ∧ (containsEdge c1wArena ((getD c1wArena 1).bases)
              { related_class := 0, access := "public" } = false →
            (getD (joinDerived c1wLv 0 c1wArena { related_class := 1, access := "public" }) 1).bases
              = (getD c1wArena 1).bases ++ [{ related_class := 0, access := "public" }])))) :=
  ⟨⟨by decide, by decide, by decide⟩,
    c1_amended_edge_repair c1wLv c1wArena 0 1 { related_class := 1, access := "public" }
      (by decide) (by decide) (by decide)⟩

/-! ### Namespace-joiner lemmas -/

theorem attrFrame_refl (a : Arena) : AttrFrame a a :=
  ⟨fun _ => rfl, fun _ => rfl, fun _ => rfl⟩

theorem attrFrame_trans {a b c : Arena} (h1 : AttrFrame a b) (h2 : AttrFrame b c) :
    AttrFrame a c :=
  ⟨fun j => (h2.kind j).trans (h1.kind j),
   fun j => (h2.name j).trans (h1.name j),
   fun j => (h2.sig j).trans (h1.sig j)⟩

theorem attrFrame_modify (a : Arena) (i : Nat) (f : Decl → Decl)
    (hk : ∀ d, (f d).kind = d.kind) (hn : ∀ d, (f d).name = d.name)
    (hs : ∀ d, (f d).sig = d.sig) : AttrFrame a (modifyDecl a i f) := by
  refine ⟨?_, ?_, ?_⟩ <;>
    · intro j
      rw [getD_modify]
      split_ifs with hc
      · rw [hc.1]
        first
          | exact hk (getD a i)
          | exact hn (getD a i)
          | exact hs (getD a i)
      · rfl

theorem attrFrame_foldl {β : Type} (g : Arena → β → Arena)
    (hg : ∀ x b0, AttrFrame x (g x b0)) :
    ∀ (l : List β) (a : Arena), AttrFrame a (l.foldl g a)
  | [], a => attrFrame_refl a
  | b :: l, a => attrFrame_trans (hg a b) (attrFrame_foldl g hg l (g a b))

theorem attrFrame_modify_any (a x : Arena) (hx : AttrFrame a x) (n : Nat) (f : Decl → Decl)
    (hk : ∀ d, (f d).kind = d.kind) (hn : ∀ d, (f d).name = d.name)
    (hs : ∀ d, (f d).sig = d.sig) : AttrFrame a (modifyDecl x n f) :=
  attrFrame_trans hx (attrFrame_modify x n f hk hn hs)

theorem attrFrame_foldl_from {β : Type} (g : Arena → β → Arena)
    (hg : ∀ x b0, AttrFrame x (g x b0)) (l : List β) (a b : Arena) (hab : AttrFrame a b) :
    AttrFrame a (l.foldl g b) :=
  attrFrame_trans hab (attrFrame_foldl g hg l b)

theorem take_parenting_attrFrame (a : Arena) (target other : Nat) :
    AttrFrame a (take_parenting a target other) := by
  unfold take_parenting
  dsimp only
  apply attrFrame_foldl_from
  · intro x b0
    apply attrFrame_modify <;> intro d <;> rfl
  · refine attrFrame_modify_any a _ ?_ _ _ ?_ ?_ ?_
    · apply attrFrame_modify <;> intro d <;> rfl
    · intro d
      rfl
    · intro d
      rfl
    · intro d
      rfl

theorem declSigEq_frame {a0 ar : Arena} (hf : AttrFrame a0 ar) (r i : Nat) :
    declSigEq ar r i = declSigEq a0 r i := by
  unfold declSigEq
  rw [hf.name r, hf.name i, hf.sig r, hf.sig i]

theorem joinNamespacesStep_attrFrame (a0 : Arena) (st : DDHash × List Nat × Arena) (i : Nat)
    (hf : AttrFrame a0 st.2.2) : AttrFrame a0 (joinNamespacesStep st i).2.2 := by
  unfold joinNamespacesStep
  dsimp only
  cases ddFind (getD st.2.2 i).kind st.1 with
  | none => exact hf
  | some joined =>
    dsimp only
    cases ndFind (getD st.2.2 i).name joined with
    | none => exact hf
    | some recorded =>
      dsimp only
      split
      · split
        · exact hf
        · exact hf
      · split
        · cases recorded with
          | nil => exact hf
          | cons r rest =>
            exact attrFrame_trans hf (take_parenting_attrFrame st.2.2 r i)
        · exact hf

theorem joinNamespacesStep_out (st : DDHash × List Nat × Arena) (i : Nat) :
    (joinNamespacesStep st i).2.1 = st.2.1
      ∨ (joinNamespacesStep st i).2.1 = st.2.1 ++ [i] := by
  unfold joinNamespacesStep
  dsimp only
  cases ddFind (getD st.2.2 i).kind st.1 with
  | none => exact Or.inr rfl
  | some joined =>
    dsimp only
    cases ndFind (getD st.2.2 i).name joined with
    | none => exact Or.inr rfl
    | some recorded =>
      dsimp only
      split
      · split
        · exact Or.inl rfl
        · exact Or.inr rfl
      · split
        · cases recorded with
          | nil => exact Or.inl rfl
          | cons r rest => exact Or.inl rfl
        · exact Or.inl rfl

theorem ndFind_ndSet (n : String) (l : List Nat) (n' : String) :
    ∀ m, ndFind n' (ndSet n l m) = if n = n' then some l else ndFind n' m
  | [] => by
    unfold ndSet ndFind
    by_cases h : n = n'
    · rw [if_pos h, if_pos h]
    · rw [if_neg h, if_neg h]
      rfl
  | kv :: rest => by
    unfold ndSet
    by_cases h1 : kv.1 = n
    · rw [if_pos h1]
      unfold ndFind
      by_cases h2 : n = n'
      · rw [if_pos h2, if_pos h2]
      · rw [if_neg h2, if_neg h2, if_neg (fun he => h2 (h1.symm.trans he))]
    · rw [if_neg h1]
      unfold ndFind
      by_cases h2 : kv.1 = n'
      · rw [if_pos h2, if_pos h2, if_neg (fun he => h1 (h2.trans he.symm))]
      · rw [if_neg h2, if_neg h2, ndFind_ndSet n l n' rest]

theorem ddFind_ddSet (k : DKind) (m : List (String × List Nat)) (k' : DKind) :
    ∀ h, ddFind k' (ddSet k m h) = if k = k' then some m else ddFind k' h
  | [] => by
    unfold ddSet ddFind
    by_cases h : k = k'
    · rw [if_pos h, if_pos h]
    · rw [if_neg h, if_neg h]
      rfl
  | kv :: rest => by
    unfold ddSet
    by_cases h1 : kv.1 = k
    · rw [if_pos h1]
      unfold ddFind
      by_cases h2 : k = k'
      · rw [if_pos h2, if_pos h2]
      · rw [if_neg h2, if_neg h2, if_neg (fun he => h2 (h1.symm.trans he))]
    · rw [if_neg h1]
      unfold ddFind
      by_cases h2 : kv.1 = k'
      · rw [if_pos h2, if_pos h2, if_neg (fun he => h1 (h2.trans he.symm))]
      · rw [if_neg h2, if_neg h2, ddFind_ddSet k m k' rest]

theorem dd2_ddSet (k : DKind) (m : List (String × List Nat)) (h : DDHash) (k' : DKind)
    (n' : String) :
    dd2 (ddSet k m h) k' n' = if k = k' then ndFind n' m else dd2 h k' n' := by
  unfold dd2
  rw [ddFind_ddSet]
  by_cases hk : k = k'
  · rw [if_pos hk, if_pos hk]
  · rw [if_neg hk, if_neg hk]

theorem dd2_insert (h : DDHash) (k0 : DKind) (n0 : String) (L : List Nat)
    (hdd : ddFind k0 h = none) (k : DKind) (n : String) :
    dd2 (ddSet k0 [(n0, L)] h) k n
      = if k0 = k ∧ n0 = n then some L else dd2 h k n := by
  by_cases hk : k0 = k
  · rw [dd2_ddSet, if_pos hk]
    unfold ndFind
    dsimp only
    by_cases hn : n0 = n
    · rw [if_pos hn, if_pos ⟨hk, hn⟩]
    · rw [if_neg hn, if_neg (fun hc => hn hc.2)]
      unfold dd2
      rw [← hk, hdd]
      rfl
  · rw [dd2_ddSet, if_neg hk, if_neg (fun hc => hk hc.1)]

theorem dd2_update (h : DDHash) (k0 : DKind) (n0 : String) (L : List Nat)
    (joined : List (String × List Nat)) (hdd : ddFind k0 h = some joined)
    (k : DKind) (n : String) :
    dd2 (ddSet k0 (ndSet n0 L joined) h) k n
      = if k0 = k ∧ n0 = n then some L else dd2 h k n := by
  by_cases hk : k0 = k
  · rw [dd2_ddSet, if_pos hk, ndFind_ndSet]
    by_cases hn : n0 = n
    · rw [if_pos hn, if_pos ⟨hk, hn⟩]
    · rw [if_neg hn, if_neg (fun hc => hn hc.2)]
      unfold dd2
      rw [← hk, hdd]
  · rw [dd2_ddSet, if_neg hk, if_neg (fun hc => hk hc.1)]

/-- One `_join_namespaces` loop iteration preserves the invariant. -/
theorem joinNSInv_step (a0 : Arena) (pr : List Nat) (st : DDHash × List Nat × Arena) (i : Nat)
    (inv : JoinNSInv a0 pr st) : JoinNSInv a0 (pr ++ [i]) (joinNamespacesStep st i) := by
  obtain ⟨dh, out, ar⟩ := st
  have hfr : AttrFrame a0 ar := inv.frame
  have mk : ∀ (h2 : DDHash) (L : List Nat),
      (∀ k n, dd2 h2 k n
        = if (getD a0 i).kind = k ∧ (getD a0 i).name = n then some L else dd2 dh k n) →
      (∀ r ∈ L, r = i ∨ ∃ l0, dd2 dh (getD a0 i).kind (getD a0 i).name = some l0 ∧ r ∈ l0) →
      (∀ l0, dd2 dh (getD a0 i).kind (getD a0 i).name = some l0 → ∀ r ∈ l0, r ∈ L) →
      i ∈ L →
      JoinNSInv a0 (pr ++ [i]) (h2, out ++ [i], ar) := by
    intro h2 L hchar horig hext hiL
    refine ⟨hfr, ?_, ?_, ?_⟩
    · intro x hx
      rcases List.mem_append.mp hx with hx | hx
      · exact List.mem_append_left _ (inv.outSub x hx)
      · exact List.mem_append_right _ hx
    · intro k n l hdl r hr
      rw [hchar] at hdl
      split_ifs at hdl with hcon
      · injection hdl with hdl
        subst hdl
        rcases horig r hr with rfl | ⟨l0, hl0, hrl0⟩
        · exact ⟨List.mem_append_right _ (List.mem_singleton.mpr rfl), hcon.1, hcon.2,
            List.mem_append_right _ (List.mem_singleton.mpr rfl)⟩
        · obtain ⟨hpr, hk, hn, hout⟩ := inv.recOk _ _ _ hl0 r hrl0
          exact ⟨List.mem_append_left _ hpr, by rw [hk]; exact hcon.1,
            by rw [hn]; exact hcon.2, List.mem_append_left _ hout⟩
      · obtain ⟨hpr, hk, hn, hout⟩ := inv.recOk k n l hdl r hr
        exact ⟨List.mem_append_left _ hpr, hk, hn, List.mem_append_left _ hout⟩
    · intro s hs
      rcases List.mem_append.mp hs with hs | hs
      · obtain ⟨l0, hl0, hrep⟩ := inv.covers s hs
        by_cases hcon : (getD a0 i).kind = (getD a0 s).kind
            ∧ (getD a0 i).name = (getD a0 s).name
        · refine ⟨L, by rw [hchar, if_pos hcon], ?_⟩
          intro hcall
          obtain ⟨r, hrl0, hrname, hrsig⟩ := hrep hcall
          have hrL : r ∈ L := hext l0 (by rw [hcon.1, hcon.2]; exact hl0) r hrl0
          exact ⟨r, hrL, hrname, hrsig⟩
        · refine ⟨l0, ?_, hrep⟩
          rw [hchar, if_neg hcon]
          exact hl0
      · rw [List.mem_singleton.mp hs]
        refine ⟨L, by rw [hchar, if_pos ⟨rfl, rfl⟩], ?_⟩
        intro _
        exact ⟨i, hiL, rfl, rfl⟩
  have unchangedInv : ∀ (ar2 : Arena), AttrFrame a0 ar2 →
      (∃ l, dd2 dh (getD a0 i).kind (getD a0 i).name = some l
        ∧ (isCalldef (getD a0 i).kind = true →
            ∃ r ∈ l, (getD a0 r).name = (getD a0 i).name
              ∧ (getD a0 r).sig = (getD a0 i).sig)) →
      JoinNSInv a0 (pr ++ [i]) (dh, out, ar2) := by
    intro ar2 hfr2 hcov
    refine ⟨hfr2, ?_, ?_, ?_⟩
    · intro x hx
      exact List.mem_append_left _ (inv.outSub x hx)
    · intro k n l hdl r hr
      obtain ⟨hpr, hk, hn, hout⟩ := inv.recOk k n l hdl r hr
      exact ⟨List.mem_append_left _ hpr, hk, hn, hout⟩
    · intro s hs
      rcases List.mem_append.mp hs with hs | hs
      · exact inv.covers s hs
      · rw [List.mem_singleton.mp hs]
        exact hcov
  unfold joinNamespacesStep
  dsimp only
  rw [hfr.kind i, hfr.name i]
  cases hdd : ddFind (getD a0 i).kind dh with
  | none =>
    refine mk _ [i] (fun k n => dd2_insert dh _ _ [i] hdd k n) ?_ ?_
      (List.mem_singleton.mpr rfl)
    · intro r hr
      exact Or.inl (List.mem_singleton.mp hr)
    · intro l0 hl0
      exfalso
      unfold dd2 at hl0
      rw [hdd] at hl0
      exact Option.noConfusion hl0
  | some joined =>
    dsimp only
    have hdd2 : dd2 dh (getD a0 i).kind (getD a0 i).name
        = ndFind (getD a0 i).name joined := by
      unfold dd2
      rw [hdd]
    cases hnd : ndFind (getD a0 i).name joined with
    | none =>
      refine mk _ [i] (fun k n => dd2_update dh _ _ [i] joined hdd k n) ?_ ?_
        (List.mem_singleton.mpr rfl)
      · intro r hr
        exact Or.inl (List.mem_singleton.mp hr)
      · intro l0 hl0
        exfalso
        rw [hdd2, hnd] at hl0
        exact Option.noConfusion hl0
    | some recorded =>
      dsimp only
      have hsomerec : dd2 dh (getD a0 i).kind (getD a0 i).name = some recorded := by
        rw [hdd2, hnd]
      split_ifs with hcall hany hns
      · -- signature-identical duplicate: discarded, nothing recorded
        apply unchangedInv ar hfr
        refine ⟨recorded, hsomerec, ?_⟩
        intro _
        obtain ⟨r, hrrec, hreq⟩ := List.any_eq_true.mp hany
        rw [declSigEq_frame hfr] at hreq
        unfold declSigEq at hreq
        rw [Bool.and_eq_true, decide_eq_true_eq, decide_eq_true_eq] at hreq
        exact ⟨r, hrrec, hreq.1, hreq.2⟩
      · -- genuinely new overload: kept and recorded
        refine mk _ (recorded ++ [i])
          (fun k n => dd2_update dh _ _ (recorded ++ [i]) joined hdd k n) ?_ ?_
          (List.mem_append_right _ (List.mem_singleton.mpr rfl))
        · intro r hr
          rcases List.mem_append.mp hr with hr | hr
          · exact Or.inr ⟨recorded, hsomerec, hr⟩
          · exact Or.inl (List.mem_singleton.mp hr)
        · intro l0 hl0 r hr
          rw [hsomerec] at hl0
          injection hl0 with hl0
          subst hl0
          exact List.mem_append_left _ hr
      · -- duplicate nested namespace: folded into the first one
        cases recorded with
        | nil =>
          apply unchangedInv ar hfr
          exact ⟨[], hsomerec, fun hc => absurd hc hcall⟩
        | cons r rest =>
          apply unchangedInv (take_parenting ar r i)
            (attrFrame_trans hfr (take_parenting_attrFrame ar r i))
          exact ⟨r :: rest, hsomerec, fun hc => absurd hc hcall⟩
      · -- other duplicate kind: discarded
        apply unchangedInv ar hfr
        exact ⟨recorded, hsomerec, fun hc => absurd hc hcall⟩

theorem joinNSInv_base (a0 : Arena) : JoinNSInv a0 [] ([], [], a0) := by
  refine ⟨attrFrame_refl a0, ?_, ?_, ?_⟩
  · intro x hx
    exact absurd hx (List.not_mem_nil x)
  · intro k n l hdl
    unfold dd2 ddFind at hdl
    exact absurd hdl (by simp)
  · intro s hs
    exact absurd hs (List.not_mem_nil s)

theorem joinNSInv_foldl (a0 : Arena) :
    ∀ (l : List Nat) (pr : List Nat) (st : DDHash × List Nat × Arena),
      JoinNSInv a0 pr st → JoinNSInv a0 (pr ++ l) (l.foldl joinNamespacesStep st)
  | [], pr, st, inv => by simpa using inv
  | x :: l, pr, st, inv => by
    have h2 := joinNSInv_foldl a0 l (pr ++ [x]) _ (joinNSInv_step a0 pr st x inv)
    rw [List.foldl_cons]
    simpa [List.append_assoc] using h2

theorem joinNS_out_mono :
    ∀ (l : List Nat) (st : DDHash × List Nat × Arena) (x : Nat),
      x ∈ st.2.1 → x ∈ (l.foldl joinNamespacesStep st).2.1
  | [], _, _, hx => hx
  | y :: l, st, x, hx => by
    rw [List.foldl_cons]
    apply joinNS_out_mono l _ x
    rcases joinNamespacesStep_out st y with h | h
    · rw [h]
      exact hx
    · rw [h]
      exact List.mem_append_left _ hx

theorem joinNS_out_absent :
    ∀ (l : List Nat) (st : DDHash × List Nat × Arena) (x : Nat),
      x ∉ st.2.1 → x ∉ l → x ∉ (l.foldl joinNamespacesStep st).2.1
  | [], _, _, hx, _ => hx
  | y :: l, st, x, hx, hxl => by
    rw [List.foldl_cons]
    apply joinNS_out_absent l _ x ?_ (fun hm => hxl (List.mem_cons_of_mem y hm))
    rcases joinNamespacesStep_out st y with h | h
    · rw [h]
      exact hx
    · rw [h]
      intro hm
      rcases List.mem_append.mp hm with hm | hm
      · exact hx hm
      · exact hxl (by rw [List.mem_singleton.mp hm]; exact List.mem_cons_self y l)

/-- Core of the overload-preservation claim: a callable child is kept by its
own loop iteration iff no already processed child shares its concrete class,
name and signature. -/
theorem joinNS_kept_iff (a0 : Arena) (pr : List Nat) (st : DDHash × List Nat × Arena)
    (inv : JoinNSInv a0 pr st) (i : Nat)
    (hical : isCalldef (getD a0 i).kind = true) (hout : i ∉ st.2.1) :
    (i ∈ (joinNamespacesStep st i).2.1 ↔
      ¬∃ s ∈ pr, (getD a0 s).kind = (getD a0 i).kind ∧ (getD a0 s).name = (getD a0 i).name
        ∧ (getD a0 s).sig = (getD a0 i).sig) := by
  obtain ⟨dh, out, ar⟩ := st
  have hfr : AttrFrame a0 ar := inv.frame
  unfold joinNamespacesStep
  dsimp only
  rw [hfr.kind i, hfr.name i]
  cases hdd : ddFind (getD a0 i).kind dh with
  | none =>
    constructor
    · intro _
      rintro ⟨s, hs, hks, hns, _⟩
      obtain ⟨l0, hl0, _⟩ := inv.covers s hs
      rw [hks, hns] at hl0
      unfold dd2 at hl0
      rw [hdd] at hl0
      exact Option.noConfusion hl0
    · intro _
      exact List.mem_append_right _ (List.mem_singleton.mpr rfl)
  | some joined =>
    dsimp only
    have hdd2 : dd2 dh (getD a0 i).kind (getD a0 i).name
        = ndFind (getD a0 i).name joined := by
      unfold dd2
      rw [hdd]
    cases hnd : ndFind (getD a0 i).name joined with
    | none =>
      constructor
      · intro _
        rintro ⟨s, hs, hks, hns, _⟩
        obtain ⟨l0, hl0, _⟩ := inv.covers s hs
        rw [hks, hns] at hl0
        rw [hdd2, hnd] at hl0
        exact Option.noConfusion hl0
      · intro _
        exact List.mem_append_right _ (List.mem_singleton.mpr rfl)
    | some recorded =>
      dsimp only
      rw [if_pos hical]
      by_cases hany : (recorded.any fun r => declSigEq ar r i) = true
      · rw [if_pos hany]
        constructor
        · intro hmem
          exact absurd hmem hout
        · intro hno
          exfalso
          obtain ⟨r, hrrec, hreq⟩ := List.any_eq_true.mp hany
          rw [declSigEq_frame hfr] at hreq
          unfold declSigEq at hreq
          rw [Bool.and_eq_true, decide_eq_true_eq, decide_eq_true_eq] at hreq
          obtain ⟨hpr, hk, hn, _⟩ := inv.recOk _ _ _ (hdd2.trans hnd) r hrrec
          exact hno ⟨r, hpr, hk, hn, hreq.2⟩
      · rw [if_neg hany]
        constructor
        · intro _
          rintro ⟨s, hs, hks, hns, hss⟩
          obtain ⟨l0, hl0, hrep⟩ := inv.covers s hs
          rw [hks, hns] at hl0
          rw [hdd2, hnd] at hl0
          injection hl0 with hl0
          subst hl0
          obtain ⟨r, hrl, hrname, hrsig⟩ := hrep (by rw [hks]; exact hical)
          apply absurd _ hany
          rw [List.any_eq_true]
          refine ⟨r, hrl, ?_⟩
          rw [declSigEq_frame hfr]
          unfold declSigEq
          rw [Bool.and_eq_true, decide_eq_true_eq, decide_eq_true_eq]
          exact ⟨hrname.trans hns, hrsig.trans hss⟩
        · intro _
          exact List.mem_append_right _ (List.mem_singleton.mpr rfl)

/-- C5: in `_join_namespaces`, a callable child at position `t` survives in
the rebuilt child list iff no earlier child has the same concrete class,
name and signature; in particular same-named overloads with different
signatures all survive while a signature-identical duplicate is
discarded. -/
theorem c5_overload_preservation (a : Arena) (ds : List Nat) (hnd : ds.Nodup)
    (t : Nat) (i : Nat) (hti : ds.get? t = some i)
    (hical : isCalldef (getD a i).kind = true) :
    (i ∈ (join_namespaces a ds).2.1 ↔
      ¬∃ s ∈ ds.take t, (getD a s).kind = (getD a i).kind
        ∧ (getD a s).name = (getD a i).name ∧ (getD a s).sig = (getD a i).sig) := by
  have ht : t < ds.length := by
    by_contra hlen
    rw [List.get?_eq_getElem?, List.getElem?_eq_none (by omega)] at hti
    exact Option.noConfusion hti
  have hgi : ds[t] = i := by
    rw [List.get?_eq_getElem?, List.getElem?_eq_getElem ht] at hti
    injection hti
  have hsplit : ds = ds.take t ++ i :: ds.drop (t + 1) := by
    conv_lhs => rw [← List.take_append_drop t ds]
    rw [List.drop_eq_getElem_cons ht, hgi]
  have hnd2 : (ds.take t ++ i :: ds.drop (t + 1)).Nodup := by
    rw [← hsplit]
    exact hnd
  rw [List.nodup_append] at hnd2
  obtain ⟨_, hnd_cons, hdisj⟩ := hnd2
  have hitake : i ∉ ds.take t := fun hmem => hdisj hmem (List.mem_cons_self i _)
  have hidrop : i ∉ ds.drop (t + 1) := (List.nodup_cons.mp hnd_cons).1
  have hfold : join_namespaces a ds
      = (ds.drop (t + 1)).foldl joinNamespacesStep
          (joinNamespacesStep ((ds.take t).foldl joinNamespacesStep ([], [], a)) i) := by
    unfold join_namespaces
    conv_lhs => rw [hsplit]
    rw [List.foldl_append, List.foldl_cons]
  have inv_t : JoinNSInv a (ds.take t) ((ds.take t).foldl joinNamespacesStep ([], [], a)) := by
    have h0 := joinNSInv_foldl a (ds.take t) [] ([], [], a) (joinNSInv_base a)
    simpa using h0
  have hout : i ∉ ((ds.take t).foldl joinNamespacesStep ([], [], a)).2.1 :=
    fun hmem => hitake (inv_t.outSub i hmem)
  have hiff := joinNS_kept_iff a (ds.take t) _ inv_t i hical hout
  rw [hfold]
  constructor
  · intro hmem hex
    by_cases hstep :
        i ∈ (joinNamespacesStep ((ds.take t).foldl joinNamespacesStep ([], [], a)) i).2.1
    · exact (hiff.mp hstep) hex
    · exact absurd hmem (joinNS_out_absent _ _ i hstep hidrop)
  · intro hnex
    exact joinNS_out_mono _ _ i (hiff.mpr hnex)

theorem c5_overload_preservation_witness :
    ([0, 1] : List Nat).Nodup
      ∧ ([0, 1] : List Nat).get? 1 = some 1
      ∧ isCalldef (getD c5Arena 1).kind = true
      ∧ ((1 : Nat) ∈ (join_namespaces c5Arena [0, 1]).2.1 ↔
          ¬∃ s ∈ ([0, 1] : List Nat).take 1,
            (getD c5Arena s).kind = (getD c5Arena 1).kind
              ∧ (getD c5Arena s).name = (getD c5Arena 1).name
              ∧ (getD c5Arena s).sig = (getD c5Arena 1).sig) :=
  ⟨by decide, by decide, by decide,
    c5_overload_preservation c5Arena [0, 1] (by decide) 1 1 (by decide) (by decide)⟩

/-! ### Duplicate-removal lemmas -/

theorem getD_oob (a : Arena) (p : Nat) (h : a.length ≤ p) : getD a p = default := by
  unfold getD
  rw [List.getD_eq_getElem?_getD, List.getElem?_eq_none h]
  rfl

/-- When an id occurs exactly once, deleting its first occurrence deletes
every occurrence. -/
theorem removeFirst_count_one (i : Nat) :
    ∀ l : List Nat, l.count i = 1 → removeFirst i l = l.filter (fun x => decide (¬ x = i))
  | [], h => by
    exact absurd h (by simp)
  | x :: xs, h => by
    unfold removeFirst
    by_cases hx : x = i
    · rw [if_pos hx]
      subst hx
      rw [List.count_cons_self] at h
      have hzero : xs.count x = 0 := by omega
      have hnot : x ∉ xs := List.count_eq_zero.mp hzero
      rw [List.filter_cons_of_neg (by simp)]
      rw [List.filter_eq_self.mpr ?_]
      intro y hy
      simp only [decide_eq_true_eq]
      intro hyx
      exact hnot (by rw [← hyx]; exact hy)
    · rw [if_neg hx]
      rw [List.filter_cons_of_pos (by simpa using hx)]
      rw [removeFirst_count_one i xs (by rw [← h, List.count_cons_of_ne (fun he => hx he.symm)])]

/-- Adding one removed id refines the kept-filter. -/
theorem filter_removed_append (l : List Nat) (removed : List Nat) (i : Nat) :
    (l.filter (fun x => decide (¬ x ∈ removed))).filter (fun x => decide (¬ x = i))
      = l.filter (fun x => decide (¬ x ∈ removed ++ [i])) := by
  rw [List.filter_filter]
  apply List.filter_congr
  intro x _
  by_cases h1 : x = i <;> by_cases h2 : x ∈ removed <;>
    simp [h1, h2, List.mem_append]

/-- A list not containing the new removed id keeps the same filter. -/
theorem filter_removed_irrelevant (l : List Nat) (removed : List Nat) (i : Nat)
    (h : i ∉ l) :
    l.filter (fun x => decide (¬ x ∈ removed))
      = l.filter (fun x => decide (¬ x ∈ removed ++ [i])) := by
  apply List.filter_congr
  intro x hx
  have hxi : x ≠ i := fun he => h (he ▸ hx)
  by_cases h2 : x ∈ removed <;> simp [h2, List.mem_append, hxi]

/-- One step of the removal loop: a canonical class leaves the state
untouched; a duplicate is deleted from exactly its container. -/
theorem removeDuplicate_spec (lv : LeavedClasses) (a0 : Arena) (top0 : List Nat)
    (removed : List Nat) (st : Arena × List Nat) (i : Nat)
    (hinv : RemovalInv a0 top0 removed st)
    (hgp : GoodPlacement a0 top0 i)
    (hlook : (lookupLeaved lv (create_key a0 i)).isSome)
    (hfresh : i ∉ removed) :
    (lookupLeaved lv (create_key a0 i) = some i → removeDuplicate lv st i = st)
      ∧ (¬ lookupLeaved lv (create_key a0 i) = some i →
          RemovalInv a0 top0 (removed ++ [i]) (removeDuplicate lv st i)) := by
  obtain ⟨c, hc⟩ := Option.isSome_iff_exists.mp hlook
  have hkey : create_key st.1 i = create_key a0 i := create_key_frame hinv.frame i
  constructor
  · intro hcan
    unfold removeDuplicate
    rw [hkey, hcan]
    dsimp only
    rw [if_pos rfl]
  · intro hdup
    have hci : ¬ c = i := fun he => hdup (he ▸ hc)
    unfold removeDuplicate
    rw [hkey, hc]
    dsimp only
    rw [if_neg hci]
    have hparent : (getD st.1 i).parent = (getD a0 i).parent := hinv.frame.parent i
    rw [hparent]
    unfold GoodPlacement containerList at hgp
    cases hp : (getD a0 i).parent with
    | some p =>
      rw [hp] at hgp
      dsimp only at hgp
      obtain ⟨hcount, hnotTop, hother⟩ := hgp
      have hplen : p < a0.length := by
        by_contra hple
        rw [getD_oob a0 p (by omega)] at hcount
        rw [show (default : Decl).declarations = ([] : List Nat) from rfl] at hcount
        simp at hcount
      have hcur : (getD st.1 p).declarations
          = ((getD a0 p).declarations).filter (fun x => decide (¬ x ∈ removed)) :=
        hinv.decls p
      have hcount2 : ((getD st.1 p).declarations).count i = 1 := by
        rw [hcur, List.count_filter (by simpa using hfresh)]
        exact hcount
      refine ⟨?_, ?_, ?_⟩
      · dsimp only
        exact frameEq_trans hinv.frame (by apply frame_modify <;> intro d <;> rfl)
      · dsimp only
        intro j
        by_cases hj : j = p
        · subst hj
          rw [getD_modify_self st.1 j _ (by rw [hinv.frame.len]; exact hplen)]
          dsimp only
          rw [removeFirst_count_one i _ hcount2, hcur, filter_removed_append]
        · rw [getD_modify_other st.1 p j _ hj, hinv.decls j]
          apply filter_removed_irrelevant
          by_cases hjlen : j < a0.length
          · exact hother j (List.mem_range.mpr hjlen)
              (by intro he; exact hj (Option.some.inj he).symm)
          · rw [getD_oob a0 j (by omega)]
            exact List.not_mem_nil i
      · dsimp only
        rw [hinv.top]
        exact filter_removed_irrelevant top0 removed i (hnotTop rfl)
    | none =>
      rw [hp] at hgp
      dsimp only at hgp
      obtain ⟨hcount, _, hother⟩ := hgp
      have hcount2 : (st.2).count i = 1 := by
        rw [hinv.top, List.count_filter (by simpa using hfresh)]
        exact hcount
      refine ⟨hinv.frame, ?_, ?_⟩
      · dsimp only
        intro j
        rw [hinv.decls j]
        apply filter_removed_irrelevant
        by_cases hjlen : j < a0.length
        · exact hother j (List.mem_range.mpr hjlen) (by simp)
        · rw [getD_oob a0 j (by omega)]
          exact List.not_mem_nil i
      · dsimp only
        rw [removeFirst_count_one i _ hcount2, hinv.top, filter_removed_append]

/-- The removal loop deletes exactly the non-canonical classes among the
scanned ones. -/
theorem removal_fold_inv (lv : LeavedClasses) (a0 : Arena) (top0 : List Nat) :
    ∀ (cs removed : List Nat) (st : Arena × List Nat),
      (∀ x ∈ cs, GoodPlacement a0 top0 x) →
      (∀ x ∈ cs, (lookupLeaved lv (create_key a0 x)).isSome) →
      (removed ++ cs).Nodup →
      RemovalInv a0 top0 removed st →
      RemovalInv a0 top0
        (removed ++ cs.filter (fun x => decide (¬ lookupLeaved lv (create_key a0 x) = some x)))
        (cs.foldl (removeDuplicate lv) st)
  | [], removed, st, _, _, _, hinv => by simpa using hinv
  | x :: cs, removed, st, hgp, hlook, hnd, hinv => by
    rw [List.foldl_cons]
    have hfresh : x ∉ removed := by
      rw [List.nodup_append] at hnd
      exact fun hm => hnd.2.2 hm (List.mem_cons_self x cs)
    have hspec := removeDuplicate_spec lv a0 top0 removed st x hinv
      (hgp x (List.mem_cons_self x cs)) (hlook x (List.mem_cons_self x cs)) hfresh
    by_cases hcan : lookupLeaved lv (create_key a0 x) = some x
    · rw [hspec.1 hcan, List.filter_cons_of_neg (by simp [hcan])]
      exact removal_fold_inv lv a0 top0 cs removed st
        (fun y hy => hgp y (List.mem_cons_of_mem x hy))
        (fun y hy => hlook y (List.mem_cons_of_mem x hy))
        (hnd.sublist (List.Sublist.append_left (List.sublist_cons_self x cs) removed)) hinv
    · have ih := removal_fold_inv lv a0 top0 cs (removed ++ [x]) (removeDuplicate lv st x)
        (fun y hy => hgp y (List.mem_cons_of_mem x hy))
        (fun y hy => hlook y (List.mem_cons_of_mem x hy))
        (by rw [List.append_assoc]; exact hnd)
        (hspec.2 hcan)
      rw [List.filter_cons_of_pos (by simp [hcan])]
      simpa [List.append_assoc] using ih

/-- C3: after `_join_class_hierarchy`, a class of the flattened forest
survives in its container (its parent's child list, or the top-level list
when parentless) iff it is the first class observed for its identity key in
stable scan order; every other class with the same key has been removed,
and removal by object identity never deletes the canonical instance. -/
theorem c3_duplicate_removal (f : Forest) (hWF : WFForest f) (i : Nat)
    (hi : i ∈ classesOf f) :
    (survives (join_class_hierarchy f).2 i ↔
      (classesOf f).find? (fun j => decide (create_key f.arena j = create_key f.arena i))
        = some i) := by
  obtain ⟨hnodup, hplace⟩ := hWF
  have hEO := join_phase2_edgeOnly f
  set lv := build_leaved_classes f.arena (classesOf f) with hlv
  set a1 := (classesOf f).foldl (repairClass lv) f.arena with ha1
  set stF := (classesOf f).foldl (removeDuplicate lv) (a1, f.top) with hstF
  have hres : (join_class_hierarchy f).2.arena = stF.1
      ∧ (join_class_hierarchy f).2.top = stF.2 := ⟨rfl, rfl⟩
  have hinv0 : RemovalInv f.arena f.top [] (a1, f.top) := by
    refine ⟨hEO.frame, ?_, ?_⟩
    · intro j
      dsimp only
      rw [hEO.decls j]
      symm
      apply List.filter_eq_self.mpr
      intro y _
      simp
    · dsimp only
      symm
      apply List.filter_eq_self.mpr
      intro y _
      simp
  have hlookAll : ∀ x ∈ classesOf f, (lookupLeaved lv (create_key f.arena x)).isSome := by
    intro x hx
    obtain ⟨c, hc⟩ := build_leaved_covers f.arena (classesOf f) x hx
    rw [hlv, hc]
    rfl
  have hinvF : RemovalInv f.arena f.top
      ((classesOf f).filter
        (fun x => decide (¬ lookupLeaved lv (create_key f.arena x) = some x)))
      stF := by
    have h0 := removal_fold_inv lv f.arena f.top (classesOf f) [] (a1, f.top)
      hplace hlookAll (by simpa using hnodup) hinv0
    simpa using h0
  have hpar : (getD stF.1 i).parent = (getD f.arena i).parent := hinvF.frame.parent i
  have hgpi := hplace i hi
  have hlookfind : lookupLeaved lv (create_key f.arena i)
      = (classesOf f).find? (fun j => decide (create_key f.arena j = create_key f.arena i)) := by
    rw [hlv]
    exact build_leaved_lookup f.arena (classesOf f) (create_key f.arena i)
  have hRmem : (i ∈ (classesOf f).filter
        (fun x => decide (¬ lookupLeaved lv (create_key f.arena x) = some x))) ↔
      ¬ lookupLeaved lv (create_key f.arena i) = some i := by
    rw [List.mem_filter]
    constructor
    · intro h
      simpa using h.2
    · intro h
      exact ⟨hi, by simpa using h⟩
  unfold survives containerList
  rw [hres.1, hres.2, hpar]
  unfold GoodPlacement containerList at hgpi
  cases hp : (getD f.arena i).parent with
  | some p =>
    rw [hp] at hgpi
    dsimp only at hgpi
    have himem : i ∈ (getD f.arena p).declarations :=
      List.count_pos_iff.mp (by rw [hgpi.1]; exact Nat.one_pos)
    dsimp only
    rw [hinvF.decls p, List.mem_filter]
    constructor
    · rintro ⟨_, hdec⟩
      have hnotR := of_decide_eq_true hdec
      rw [← hlookfind]
      by_contra hne
      exact hnotR (hRmem.mpr hne)
    · intro hfind
      refine ⟨himem, ?_⟩
      rw [decide_eq_true_eq]
      intro hiR
      exact (hRmem.mp hiR) (by rw [hlookfind]; exact hfind)
  | none =>
    rw [hp] at hgpi
    dsimp only at hgpi
    have himem : i ∈ f.top := List.count_pos_iff.mp (by rw [hgpi.1]; exact Nat.one_pos)
    dsimp only
    rw [hinvF.top, List.mem_filter]
    constructor
    · rintro ⟨_, hdec⟩
      have hnotR := of_decide_eq_true hdec
      rw [← hlookfind]
      by_contra hne
      exact hnotR (hRmem.mpr hne)
    · intro hfind
      refine ⟨himem, ?_⟩
      rw [decide_eq_true_eq]
      intro hiR
      exact (hRmem.mp hiR) (by rw [hlookfind]; exact hfind)

theorem c3_duplicate_removal_witness :
    WFForest c3Forest
      ∧ (1 : Nat) ∈ classesOf c3Forest
      ∧ (survives (join_class_hierarchy c3Forest).2 1 ↔
          (classesOf c3Forest).find?
              (fun j => decide (create_key c3Forest.arena j = create_key c3Forest.arena 1))
            = some 1) :=
  ⟨by decide, by decide, c3_duplicate_removal c3Forest (by decide) 1 (by decide)⟩

end PygSpec
